import Mathlib

/-
Verification of the model-import synchronizer in scripts/import_models.py.

The script works on a two-level directory layout: a models root contains a
manifest file best_models.json plus one subdirectory per category (ruleset),
each holding model files.  We embed exactly that layout: a path is either a
file directly under a root or a file inside a category directory of a root,
and a filesystem is a finite association of paths to contents, together with
two oracles telling which paths raise on read (open/md5) and which raise on
unlink.  File identity in the script is equality of MD5 content hashes; the
embedding idealizes MD5 as injective, so a hash is the content itself.
Manifest files carry their parsed JSON object; a JSON document that is not
an object of entries is folded into badJson (the script's manifests are
always objects).  datetime.now() is called exactly once in
update_dest_best_models (line 246); it is embedded as the single `now`
argument.  Directory enumeration (iterdir/glob) is derived from the file
association; source and destination roots are distinct in every intended
run, which theorems state explicitly where it matters.
-/

set_option autoImplicit false

namespace ImportModels

/-- Identifier of a models root directory (source or destination tree). -/
abbrev RootId := Nat

/-- Paths of the two-level layout used by the script: a file directly under
a models root, or a file inside a category subdirectory. -/
inductive FPath where
  | rootFile (root : RootId) (name : String)
  | catFile (root : RootId) (cat : String) (name : String)
deriving DecidableEq, Repr

/-- A parsed manifest entry: either a JSON object that contains a
"model_file" key (the shape both sync_best_models and cleanup_old_models
test with isinstance/in), or any other JSON value. -/
inductive JEntry where
  | wf (model_file : String) (date : String) (time : String)
  | bad (raw : String)
deriving DecidableEq, Repr

/-- Contents of a file: an opaque model blob, a manifest whose JSON object
parse is the given entry list, or bytes that do not parse to an object. -/
inductive Content where
  | blob (data : String)
  | manifest (entries : List (String × JEntry))
  | badJson (data : String)
deriving DecidableEq, Repr

/-- The value of the single datetime.now() call, already formatted by
strftime as a date string and a time string. -/
structure Now where
  date : String
  time : String
deriving DecidableEq, Repr

/-- A filesystem state: the finite file association plus the failure
oracles (which reads raise inside file_md5, which unlinks raise). -/
structure FS where
  files : List (FPath × Content)
  readFail : FPath → Bool
  unlinkFail : FPath → Bool

/-- Lookup in an association list, first match wins. -/
def alookup {α β : Type} [DecidableEq α] : List (α × β) → α → Option β
  | [], _ => none
  | (a, b) :: t, k => if a = k then some b else alookup t k

/-- Store a value under a key: replace the first binding of the key in
place, or append a new binding (Python dict assignment semantics). -/
def aupsert {α β : Type} [DecidableEq α] : List (α × β) → α → β → List (α × β)
  | [], k, v => [(k, v)]
  | (a, b) :: t, k, v => if a = k then (k, v) :: t else (a, b) :: aupsert t k v

/-- Content of the file at a path, none when the path does not exist. -/
def FS.lookup (fs : FS) (p : FPath) : Option Content :=
  alookup fs.files p

/-- Create or overwrite the file at a path. -/
def FS.write (fs : FS) (p : FPath) (c : Content) : FS :=
  { fs with files := aupsert fs.files p c }

/-- Remove every binding of a key from an association list. -/
def aerase {α β : Type} [DecidableEq α] : List (α × β) → α → List (α × β)
  | [], _ => []
  | (a, b) :: t, p => if a = p then aerase t p else (a, b) :: aerase t p

/-- Remove the file at a path. -/
def FS.erase (fs : FS) (p : FPath) : FS :=
  { fs with files := aerase fs.files p }

/-- Embedding of shutil.copy2(src, dst) (import_models.py line 104): the
destination receives the source's bytes.  copy2 raises when the source is
missing; every caller in the script has already established that the
source exists, and every theorem that touches this operation carries that
hypothesis. -/
def FS.copy2 (fs : FS) (src dst : FPath) : FS :=
  match fs.lookup src with
  | some c => fs.write dst c
  | none => fs

/-- Name of the manifest file, BEST_MODELS_FILENAME (line 37). -/
def bestModelsName : String := "best_models.json"

/-- Temporary sibling used by write_json: path.with_suffix(path.suffix +
".tmp") (line 50), which for a name with a suffix appends ".tmp". -/
def tmpPath : FPath → FPath
  | FPath.rootFile r n => FPath.rootFile r (n ++ ".tmp")
  | FPath.catFile r c n => FPath.catFile r c (n ++ ".tmp")

/-- Embedding of write_json (lines 49-54): dump to the temporary sibling,
then rename it over the target, so the target is atomically replaced and
the temporary no longer exists afterwards. -/
def write_json (fs : FS) (p : FPath) (c : Content) : FS :=
  (fs.erase (tmpPath p)).write p c

/-- Embedding of read_json (lines 44-46) as used on manifests: raises
(error) when opening fails or the bytes do not parse to a JSON object of
entries. -/
def readManifest (fs : FS) (p : FPath) : Except Unit (List (String × JEntry)) :=
  if fs.readFail p then Except.error () else
    match fs.lookup p with
    | some (Content.manifest es) => Except.ok es
    | _ => Except.error ()

/-- Embedding of file_md5 (lines 57-62): raises when the file cannot be
opened or read; otherwise returns the content hash, idealized as the
content itself. -/
def file_md5 (fs : FS) (p : FPath) : Except Unit Content :=
  if fs.readFail p then Except.error () else
    match fs.lookup p with
    | some c => Except.ok c
    | none => Except.error ()

/-- Embedding of files_identical (lines 69-76): false when the destination
does not exist; any exception while hashing either file is caught and
yields false. -/
def files_identical (fs : FS) (src dst : FPath) : Bool :=
  if (fs.lookup dst).isSome = false then false
  else
    match file_md5 fs src, file_md5 fs dst with
    | Except.ok a, Except.ok b => decide (a = b)
    | _, _ => false

/-- Embedding of copy_model_file (lines 79-105).  Returns the copied flag
together with the filesystem afterwards; verbose output is not modelled. -/
def copy_model_file (fs : FS) (src_file dest_file : FPath)
    (overwrite dry_run : Bool) : Bool × FS :=
  if (fs.lookup dest_file).isSome then
    if files_identical fs src_file dest_file then (false, fs)
    else if overwrite = false then (false, fs)
    else if dry_run then (true, fs)
    else (true, fs.copy2 src_file dest_file)
  else
    if dry_run then (true, fs)
    else (true, fs.copy2 src_file dest_file)

/-- The pure copy/skip decision of copy_model_file as a function of the
two contents, the two read-failure bits and the overwrite flag. -/
def copyDecision (os od : Option Content) (rs rd : Bool) (overwrite : Bool) : Bool :=
  match od with
  | none => true
  | some cd => if rs = false ∧ rd = false ∧ os = some cd then false else overwrite

/-- Test for a hidden directory name (name.startswith('.') at lines 157
and 203). -/
def hiddenName (s : String) : Bool :=
  List.isPrefixOf ".".data s.data

/-- Glob pattern "model_*.json" (lines 165 and 207): a literal prefix
"model_", a literal suffix ".json", and any (possibly empty) run of
characters in between, which for a file name amounts to the prefix and
suffix tests plus non-overlap of the two literals. -/
def matchesModelGlob (name : String) : Bool :=
  List.isPrefixOf "model_".data name.data && List.isSuffixOf ".json".data name.data &&
    decide (11 ≤ name.length)

/-- Embedding of iterdir filtered by is_dir (lines 156-157 and 202-203):
the category subdirectories of a root, i.e. the directory names that hold
at least one file.  Files directly under the root fail is_dir and are
skipped, which the shape of FPath.catFile builds in. -/
def categories (fs : FS) (root : RootId) : List String :=
  (fs.files.filterMap (fun e => match e.1 with
    | FPath.catFile r c _ => if r = root then some c else none
    | _ => none)).dedup

/-- Embedding of ruleset_dir.glob("model_*.json"): the matching file names
inside one category directory. -/
def modelFilesIn (fs : FS) (root : RootId) (cat : String) : List String :=
  (fs.files.filterMap (fun e => match e.1 with
    | FPath.catFile r c n => if r = root ∧ c = cat ∧ matchesModelGlob n then some n else none
    | _ => none)).dedup

/-- Lexicographic comparison of character sequences by code point, the
order CPython uses to compare strings (and hence same-directory Paths,
which sorted() at line 165 compares by their final name component). -/
def lexLe : List Char → List Char → Bool
  | [], _ => true
  | _ :: _, [] => false
  | a :: as, b :: bs =>
      if a.toNat < b.toNat then true
      else if b.toNat < a.toNat then false
      else lexLe as bs

/-- String comparison by code points, as Python's sorted() orders str. -/
def strLe (a b : String) : Bool :=
  lexLe a.data b.data

/-- Embedding of sorted(ruleset_dir.glob("model_*.json")) (line 165):
ascending name order. -/
def sortedModelFiles (fs : FS) (root : RootId) (cat : String) : List String :=
  List.insertionSort (fun a b => strLe a b = true) (modelFilesIn fs root cat)

/-- One iteration of the entry loop of sync_best_models (lines 129-143):
skip malformed entries, skip entries whose source file is missing,
otherwise copy and on success record the filename under the ruleset. -/
def syncBestEntry (srcRoot destRoot : RootId) (overwrite dry_run : Bool)
    (acc : List (String × String) × FS) (it : String × JEntry) :
    List (String × String) × FS :=
  match it.2 with
  | JEntry.bad _ => acc
  | JEntry.wf mf _ _ =>
    let src_model_file := FPath.catFile srcRoot it.1 mf
    let dest_model_file := FPath.catFile destRoot it.1 mf
    if (acc.2.lookup src_model_file).isSome = false then acc
    else
      let r := copy_model_file acc.2 src_model_file dest_model_file overwrite dry_run
      if r.1 then (aupsert acc.1 it.1 mf, r.2) else (acc.1, r.2)

/-- Embedding of sync_best_models (lines 108-145). -/
def sync_best_models (fs : FS) (srcRoot destRoot : RootId)
    (overwrite dry_run : Bool) : List (String × String) × FS :=
  let src_best_json := FPath.rootFile srcRoot bestModelsName
  if (fs.lookup src_best_json).isSome = false then ([], fs)
  else
    match readManifest fs src_best_json with
    | Except.error _ => ([], fs)
    | Except.ok entries =>
        entries.foldl (syncBestEntry srcRoot destRoot overwrite dry_run) ([], fs)

/-- One iteration of the inner file loop of sync_all_models (lines
167-171): copy, and on success record the file name under the ruleset
(last one wins). -/
def syncAllFile (srcRoot destRoot : RootId) (cat : String)
    (overwrite dry_run : Bool) (acc : List (String × String) × FS)
    (name : String) : List (String × String) × FS :=
  let src_model_file := FPath.catFile srcRoot cat name
  let dest_model_file := FPath.catFile destRoot cat name
  let r := copy_model_file acc.2 src_model_file dest_model_file overwrite dry_run
  if r.1 then (aupsert acc.1 cat name, r.2) else (acc.1, r.2)

/-- One iteration of the category loop of sync_all_models (lines 156-171):
skip hidden directories, otherwise process the sorted matching files.
Enumeration reads the source tree, which a run with distinct source and
destination roots never mutates, so it is taken from the initial state. -/
def syncAllCat (fs0 : FS) (srcRoot destRoot : RootId) (overwrite dry_run : Bool)
    (acc : List (String × String) × FS) (cat : String) :
    List (String × String) × FS :=
  if hiddenName cat then acc
  else (sortedModelFiles fs0 srcRoot cat).foldl
    (syncAllFile srcRoot destRoot cat overwrite dry_run) acc

/-- Embedding of sync_all_models (lines 148-173). -/
def sync_all_models (fs : FS) (srcRoot destRoot : RootId)
    (overwrite dry_run : Bool) : List (String × String) × FS :=
  (categories fs srcRoot).foldl (syncAllCat fs srcRoot destRoot overwrite dry_run) ([], fs)

/-- Set of (ruleset, model_file) pairs protected by the manifest (lines
192-195): well-formed entries only. -/
def bestPairs (es : List (String × JEntry)) : List (String × String) :=
  es.filterMap (fun e => match e.2 with
    | JEntry.wf mf _ _ => some (e.1, mf)
    | JEntry.bad _ => none)

/-- The file loop of cleanup_old_models (lines 209-223).  model_file.unlink()
has no exception guard, so a failing unlink propagates; the error value
carries the filesystem as it stands when the exception is raised. -/
def cleanupFiles (root : RootId) (best : List (String × String)) (cat : String)
    (dry_run : Bool) : FS → List String → Except FS FS
  | fsc, [] => Except.ok fsc
  | fsc, name :: rest =>
    if (cat, name) ∈ best then cleanupFiles root best cat dry_run fsc rest
    else if dry_run then cleanupFiles root best cat dry_run fsc rest
    else
      let p := FPath.catFile root cat name
      if fsc.unlinkFail p then Except.error fsc
      else cleanupFiles root best cat dry_run (fsc.erase p) rest

/-- The category loop of cleanup_old_models (lines 202-223): skip hidden
directories; glob each category from the state at the start of the pass
(deletions only remove files of categories already globbed). -/
def cleanupCats (fs0 : FS) (root : RootId) (best : List (String × String))
    (dry_run : Bool) : FS → List String → Except FS FS
  | fsc, [] => Except.ok fsc
  | fsc, cat :: rest =>
    if hiddenName cat then cleanupCats fs0 root best dry_run fsc rest
    else
      match cleanupFiles root best cat dry_run fsc (modelFilesIn fs0 root cat) with
      | Except.ok fs1 => cleanupCats fs0 root best dry_run fs1 rest
      | Except.error fse => Except.error fse

/-- Embedding of cleanup_old_models (lines 176-226). -/
def cleanup_old_models (fs : FS) (destRoot : RootId) (dry_run : Bool) :
    Except FS FS :=
  let dest_best_json := FPath.rootFile destRoot bestModelsName
  if (fs.lookup dest_best_json).isSome = false then Except.ok fs
  else
    match readManifest fs dest_best_json with
    | Except.error _ => Except.ok fs
    | Except.ok dest_best =>
        cleanupCats fs destRoot (bestPairs dest_best) dry_run fs (categories fs destRoot)

/-- The filesystem state an Except-valued pass leaves behind (the error
payload is the state at the uncaught exception). -/
def exceptState : Except FS FS → FS
  | Except.ok f => f
  | Except.error f => f

/-- Embedding of update_dest_best_models (lines 229-260).  now is the
value of the single datetime.now() call at line 246. -/
def update_dest_best_models (fs : FS) (destRoot : RootId)
    (synced : List (String × String)) (now : Now) (dry_run : Bool) : FS :=
  if synced.isEmpty then fs
  else
    let dest_best_json := FPath.rootFile destRoot bestModelsName
    let dest_best : List (String × JEntry) :=
      if (fs.lookup dest_best_json).isSome then
        match readManifest fs dest_best_json with
        | Except.ok es => es
        | Except.error _ => []
      else []
    let updated := synced.foldl
      (fun m kv => aupsert m kv.1 (JEntry.wf kv.2 now.date now.time)) dest_best
    if dry_run then fs else write_json fs dest_best_json (Content.manifest updated)

/-- Embedding of the pipeline of main (lines 317-330): sync (all or best),
update the destination manifest when something was synced, then cleanup
when requested. -/
def run_import (fs : FS) (srcRoot destRoot : RootId)
    (allMode cleanupFlag overwrite dry_run : Bool) (now : Now) : Except FS FS :=
  let sr := if allMode then sync_all_models fs srcRoot destRoot overwrite dry_run
            else sync_best_models fs srcRoot destRoot overwrite dry_run
  let fs2 := if sr.1.isEmpty then sr.2
             else update_dest_best_models sr.2 destRoot sr.1 now dry_run
  if cleanupFlag then cleanup_old_models fs2 destRoot dry_run else Except.ok fs2

end ImportModels

namespace ImportModels

theorem alookup_aupsert {α β : Type} [DecidableEq α] (m : List (α × β)) (k : α)
    (v : β) (k' : α) :
    alookup (aupsert m k v) k' = if k' = k then some v else alookup m k' := by
  induction m with
  | nil =>
      by_cases h : k' = k
      · subst h; simp [aupsert, alookup]
      · simp [aupsert, alookup, h, Ne.symm h]
  | cons hd t ih =>
      obtain ⟨a, b⟩ := hd
      by_cases h1 : a = k
      · subst h1
        by_cases h : k' = a
        · subst h; simp [aupsert, alookup]
        · simp [aupsert, alookup, h, Ne.symm h]
      · by_cases h : k' = a
        · subst h
          simp [aupsert, alookup, h1, Ne.symm h1]
        · simp [aupsert, alookup, h1, Ne.symm h, ih]

theorem alookup_aerase {α β : Type} [DecidableEq α] (l : List (α × β)) (p q : α) :
    alookup (aerase l p) q = if q = p then none else alookup l q := by
  induction l with
  | nil => simp [alookup, aerase]
  | cons hd t ih =>
      obtain ⟨a, b⟩ := hd
      by_cases h1 : a = p
      · subst h1
        by_cases h : q = a
        · subst h; simp [aerase, alookup, ih]
        · simp [aerase, alookup, h, Ne.symm h, ih]
      · by_cases h : q = a
        · subst h
          simp [aerase, alookup, h1, Ne.symm h1]
        · simp [aerase, alookup, h1, Ne.symm h, ih]

theorem FS.lookup_write (fs : FS) (p : FPath) (c : Content) (q : FPath) :
    (fs.write p c).lookup q = if q = p then some c else fs.lookup q :=
  alookup_aupsert fs.files p c q

theorem FS.lookup_erase (fs : FS) (p q : FPath) :
    (fs.erase p).lookup q = if q = p then none else fs.lookup q :=
  alookup_aerase fs.files p q

theorem FS.readFail_write (fs : FS) (p : FPath) (c : Content) :
    (fs.write p c).readFail = fs.readFail := rfl

theorem FS.readFail_erase (fs : FS) (p : FPath) :
    (fs.erase p).readFail = fs.readFail := rfl

theorem FS.readFail_copy2 (fs : FS) (src dst : FPath) :
    (fs.copy2 src dst).readFail = fs.readFail := by
  unfold FS.copy2
  cases fs.lookup src <;> rfl

theorem FS.unlinkFail_erase (fs : FS) (p : FPath) :
    (fs.erase p).unlinkFail = fs.unlinkFail := rfl

theorem FS.lookup_copy2 (fs : FS) (src dst : FPath) (cs : Content)
    (hs : fs.lookup src = some cs) (q : FPath) :
    (fs.copy2 src dst).lookup q = if q = dst then some cs else fs.lookup q := by
  unfold FS.copy2
  rw [hs]
  exact fs.lookup_write dst cs q

theorem files_identical_eq (fs : FS) (src dst : FPath) :
    files_identical fs src dst =
      match fs.lookup dst with
      | none => false
      | some cd =>
          decide (fs.readFail src = false ∧ fs.readFail dst = false ∧
            fs.lookup src = some cd) := by
  unfold files_identical file_md5
  cases hd : fs.lookup dst with
  | none => simp
  | some cd =>
      cases hrs : fs.readFail src <;> cases hrd : fs.readFail dst <;>
        cases hos : fs.lookup src <;> simp

theorem copy_spec (fs : FS) (src dst : FPath) (ow dr : Bool) :
    copy_model_file fs src dst ow dr =
      (copyDecision (fs.lookup src) (fs.lookup dst) (fs.readFail src)
          (fs.readFail dst) ow,
        if copyDecision (fs.lookup src) (fs.lookup dst) (fs.readFail src)
              (fs.readFail dst) ow = true ∧ dr = false
        then fs.copy2 src dst else fs) := by
  unfold copy_model_file copyDecision
  rw [files_identical_eq]
  cases hd : fs.lookup dst with
  | none => cases dr <;> simp
  | some cd =>
      by_cases hid : fs.readFail src = false ∧ fs.readFail dst = false ∧
          fs.lookup src = some cd
      · simp [hid]
      · cases ow <;> cases dr <;> simp [hid]

end ImportModels

namespace ImportModels

theorem copy_model_file_fst (fs : FS) (src dst : FPath) (ow dr : Bool) :
    (copy_model_file fs src dst ow dr).1 =
      copyDecision (fs.lookup src) (fs.lookup dst) (fs.readFail src)
        (fs.readFail dst) ow := by
  rw [copy_spec]

theorem copy_model_file_state (fs : FS) (src dst : FPath) (ow dr : Bool) :
    (copy_model_file fs src dst ow dr).2 =
      if (copy_model_file fs src dst ow dr).1 = true ∧ dr = false
      then fs.copy2 src dst else fs := by
  rw [copy_spec]

/-- C1: copy_model_file returns true exactly when the destination is
missing, or exists with content differing from the source while overwrite
is set; in either false case (identical content - regardless of overwrite
and of any filesystem metadata, which content hashing ignores - or
differing content without overwrite) the filesystem is left unchanged; in
the true case with dry_run false the destination afterwards holds the
source's content and nothing else changed. -/
theorem copy_model_file_correct (fs : FS) (src dst : FPath) (cs : Content)
    (ow dr : Bool)
    (hs : fs.lookup src = some cs)
    (hrs : fs.readFail src = false) (hrd : fs.readFail dst = false) :
    ((copy_model_file fs src dst ow dr).1 = true ↔
      fs.lookup dst = none ∨
        (∃ cd, fs.lookup dst = some cd ∧ cd ≠ cs ∧ ow = true)) ∧
    ((copy_model_file fs src dst ow dr).1 = false →
      (copy_model_file fs src dst ow dr).2 = fs) ∧
    ((copy_model_file fs src dst ow dr).1 = true → dr = false →
      (copy_model_file fs src dst ow dr).2.lookup dst = some cs ∧
        ∀ q, q ≠ dst → (copy_model_file fs src dst ow dr).2.lookup q = fs.lookup q) := by
  have hcopy := FS.lookup_copy2 fs src dst cs hs
  refine ⟨?_, ?_, ?_⟩
  · rw [copy_model_file_fst]
    cases hd : fs.lookup dst with
    | none => simp [copyDecision]
    | some cd =>
        by_cases hc : cs = cd
        · subst hc
          simp [copyDecision, hs, hrs, hrd]
        · simp [copyDecision, hs, hrs, hrd, hc, Ne.symm hc]
  · intro h
    rw [copy_model_file_state, if_neg]
    rintro ⟨h1, _⟩
    rw [h] at h1
    cases h1
  · intro h1 h2
    rw [copy_model_file_state, if_pos ⟨h1, h2⟩]
    constructor
    · rw [hcopy]; simp
    · intro q hq
      rw [hcopy, if_neg hq]

/-- C7: an exception while hashing either file (unreadable source or
destination, or missing source) makes files_identical return false
instead of propagating, and copy_model_file then treats the contents as
differing: with an existing destination it returns the overwrite flag. -/
theorem files_identical_hash_error (fs : FS) (src dst : FPath) (ow dr : Bool)
    (h : fs.readFail src = true ∨ fs.readFail dst = true ∨ fs.lookup src = none) :
    files_identical fs src dst = false ∧
    ((fs.lookup dst).isSome → (copy_model_file fs src dst ow dr).1 = ow) := by
  have hne : ¬(fs.readFail src = false ∧ fs.readFail dst = false ∧
      ∃ cd, fs.lookup src = some cd) := by
    rintro ⟨h1, h2, cd, h3⟩
    rcases h with h | h | h
    · rw [h1] at h; cases h
    · rw [h2] at h; cases h
    · rw [h3] at h; cases h
  constructor
  · rw [files_identical_eq]
    cases hd : fs.lookup dst with
    | none => rfl
    | some cd =>
        simp only [decide_eq_false_iff_not]
        rintro ⟨h1, h2, h3⟩
        exact hne ⟨h1, h2, cd, h3⟩
  · intro hd
    rw [copy_model_file_fst]
    cases hd2 : fs.lookup dst with
    | none => rw [hd2] at hd; cases hd
    | some cd =>
        simp only [copyDecision]
        rw [if_neg]
        rintro ⟨h1, h2, h3⟩
        exact hne ⟨h1, h2, cd, h3⟩

end ImportModels

namespace ImportModels

/-- A filesystem with the given files and no read or unlink failures. -/
def mkFS (l : List (FPath × Content)) : FS :=
  { files := l, readFail := fun _ => false, unlinkFail := fun _ => false }

/-- Source file for the copy witnesses: Finkel/model_001.json in root 0. -/
def srcFinkel : FPath := FPath.catFile 0 "Finkel" "model_001.json"

/-- Destination file for the copy witnesses: same category and name under
root 1. -/
def dstFinkel : FPath := FPath.catFile 1 "Finkel" "model_001.json"

/-- One-file source tree for the copy witnesses. -/
def fsOneModel : FS := mkFS [(srcFinkel, Content.blob "w1")]

theorem copy_model_file_correct_witness :
    (copy_model_file fsOneModel srcFinkel dstFinkel false false).1 = true ∧
    (copy_model_file fsOneModel srcFinkel dstFinkel false false).2.lookup dstFinkel =
      some (Content.blob "w1") := by
  have h := copy_model_file_correct fsOneModel srcFinkel dstFinkel
    (Content.blob "w1") false false (by decide) (by decide) (by decide)
  have ht : (copy_model_file fsOneModel srcFinkel dstFinkel false false).1 = true :=
    h.1.mpr (Or.inl (by decide))
  exact ⟨ht, (h.2.2 ht rfl).1⟩

/-- A filesystem where reading the source model raises: both files exist
with differing bytes, but hashing the source fails. -/
def fsBadHash : FS :=
  { files := [(srcFinkel, Content.blob "w1"), (dstFinkel, Content.blob "w2")],
    readFail := fun p => decide (p = srcFinkel),
    unlinkFail := fun _ => false }

theorem files_identical_hash_error_witness :
    files_identical fsBadHash srcFinkel dstFinkel = false ∧
    (copy_model_file fsBadHash srcFinkel dstFinkel true false).1 = true := by
  have h := files_identical_hash_error fsBadHash srcFinkel dstFinkel true false
    (Or.inl (by decide))
  exact ⟨h.1, h.2 (by decide)⟩

end ImportModels

namespace ImportModels

/-- Date field of a well-formed manifest entry. -/
def entryDate : JEntry → Option String
  | JEntry.wf _ d _ => some d
  | JEntry.bad _ => none

/-- Time field of a well-formed manifest entry. -/
def entryTime : JEntry → Option String
  | JEntry.wf _ _ t => some t
  | JEntry.bad _ => none

theorem alookup_foldl_aupsert_not_mem {α β γ : Type} [DecidableEq α]
    (f : α × γ → β) (l : List (α × γ)) (m : List (α × β)) (k : α)
    (hk : k ∉ l.map Prod.fst) :
    alookup (l.foldl (fun m2 kv => aupsert m2 kv.1 (f kv)) m) k = alookup m k := by
  induction l generalizing m with
  | nil => rfl
  | cons hd t ih =>
      rw [List.map_cons, List.mem_cons] at hk
      push_neg at hk
      rw [List.foldl_cons, ih _ hk.2, alookup_aupsert, if_neg hk.1]

theorem alookup_foldl_aupsert_mem {α β γ : Type} [DecidableEq α]
    (f : α × γ → β) (l : List (α × γ)) (m : List (α × β)) (k : α) (v : γ)
    (hnd : (l.map Prod.fst).Nodup) (hmem : (k, v) ∈ l) :
    alookup (l.foldl (fun m2 kv => aupsert m2 kv.1 (f kv)) m) k = some (f (k, v)) := by
  induction l generalizing m with
  | nil => cases hmem
  | cons hd t ih =>
      rw [List.map_cons, List.nodup_cons] at hnd
      rw [List.foldl_cons]
      rcases List.mem_cons.mp hmem with he | ht
      · rw [← he] at hnd ⊢
        rw [alookup_foldl_aupsert_not_mem f t _ k hnd.1, alookup_aupsert, if_pos rfl]
      · exact ih _ hnd.2 ht

/-- C8: update_dest_best_models is the identity when the sync result is
empty; otherwise, with a readable destination manifest, the written
manifest keeps every entry of a category outside the sync result exactly
as read, and upserts every synced category to the well-formed entry
holding its filename and the current date and time. -/
theorem update_dest_best_models_spec (fs : FS) (root : RootId)
    (synced : List (String × String)) (now : Now) (dr : Bool)
    (es : List (String × JEntry))
    (hm : fs.lookup (FPath.rootFile root bestModelsName) = some (Content.manifest es))
    (hrf : fs.readFail (FPath.rootFile root bestModelsName) = false)
    (hnd : (synced.map Prod.fst).Nodup) :
    update_dest_best_models fs root [] now dr = fs ∧
    (synced ≠ [] → ∃ es2,
      (update_dest_best_models fs root synced now false).lookup
        (FPath.rootFile root bestModelsName) = some (Content.manifest es2) ∧
      (∀ c, c ∉ synced.map Prod.fst → alookup es2 c = alookup es c) ∧
      (∀ c mf, (c, mf) ∈ synced →
        alookup es2 c = some (JEntry.wf mf now.date now.time))) := by
  constructor
  · rfl
  · intro hne
    have he : synced.isEmpty = false := by
      cases synced with
      | nil => exact absurd rfl hne
      | cons hd t => rfl
    refine ⟨synced.foldl
      (fun m2 kv => aupsert m2 kv.1 (JEntry.wf kv.2 now.date now.time)) es, ?_, ?_, ?_⟩
    · simp only [update_dest_best_models, he, Bool.false_eq_true, if_false,
        readManifest, hm, hrf, Option.isSome_some, if_true, write_json]
      rw [FS.lookup_write, if_pos rfl]
    · intro c hc
      exact alookup_foldl_aupsert_not_mem _ synced es c hc
    · intro c mf hmem
      exact alookup_foldl_aupsert_mem _ synced es c mf hnd hmem

/-- C9: every entry upserted by one invocation of update_dest_best_models
carries the same date and time strings, because datetime.now() is sampled
exactly once (line 246) before the update loop. -/
theorem update_dest_best_models_same_stamp (fs : FS) (root : RootId)
    (synced : List (String × String)) (now : Now)
    (hnd : (synced.map Prod.fst).Nodup)
    (c1 c2 mf1 mf2 : String)
    (h1 : (c1, mf1) ∈ synced) (h2 : (c2, mf2) ∈ synced) :
    ∃ es2 e1 e2,
      (update_dest_best_models fs root synced now false).lookup
        (FPath.rootFile root bestModelsName) = some (Content.manifest es2) ∧
      alookup es2 c1 = some e1 ∧ alookup es2 c2 = some e2 ∧
      entryDate e1 = entryDate e2 ∧ entryTime e1 = entryTime e2 := by
  have he : synced.isEmpty = false := by
    cases synced with
    | nil => cases h1
    | cons hd t => rfl
  refine ⟨?_, JEntry.wf mf1 now.date now.time, JEntry.wf mf2 now.date now.time,
    ?_, ?_, ?_, rfl, rfl⟩
  · exact synced.foldl
      (fun m2 kv => aupsert m2 kv.1 (JEntry.wf kv.2 now.date now.time))
      (if (fs.lookup (FPath.rootFile root bestModelsName)).isSome then
        match readManifest fs (FPath.rootFile root bestModelsName) with
        | Except.ok es0 => es0
        | Except.error _ => []
      else [])
  · simp only [update_dest_best_models, he, Bool.false_eq_true, if_false, write_json]
    rw [FS.lookup_write, if_pos rfl]
  · exact alookup_foldl_aupsert_mem _ synced _ c1 mf1 hnd h1
  · exact alookup_foldl_aupsert_mem _ synced _ c2 mf2 hnd h2

end ImportModels

namespace ImportModels

/-- Manifest entries used by the update witnesses. -/
def esW : List (String × JEntry) :=
  [("Burglers", JEntry.wf "model_009.json" "2025-01-01" "01:02:03")]

/-- Destination tree holding only the manifest, for the update witnesses. -/
def fsManifest : FS :=
  mkFS [(FPath.rootFile 1 bestModelsName, Content.manifest esW)]

/-- Timestamp used by the update witnesses. -/
def nowW : Now := { date := "2025-02-03", time := "12:00:00" }

/-- One-category sync result for the update witness. -/
def syncedW : List (String × String) := [("Finkel", "model_002.json")]

/-- Two-category sync result for the timestamp witness. -/
def syncedTwo : List (String × String) :=
  [("Finkel", "model_002.json"), ("Masters", "model_003.json")]

theorem update_dest_best_models_spec_witness :
    update_dest_best_models fsManifest 1 [] nowW false = fsManifest ∧
    ∃ es2,
      (update_dest_best_models fsManifest 1 syncedW nowW false).lookup
        (FPath.rootFile 1 bestModelsName) = some (Content.manifest es2) ∧
      alookup es2 "Burglers" = alookup esW "Burglers" ∧
      alookup es2 "Finkel" = some (JEntry.wf "model_002.json" "2025-02-03" "12:00:00") := by
  have h := update_dest_best_models_spec fsManifest 1 syncedW nowW false esW
    (by decide) (by decide) (by decide)
  obtain ⟨es2, hl, hfr, hup⟩ := h.2 (by simp [syncedW])
  exact ⟨h.1, es2, hl, hfr "Burglers" (by decide),
    hup "Finkel" "model_002.json" (by decide)⟩

theorem update_dest_best_models_same_stamp_witness :
    ∃ es2 e1 e2,
      (update_dest_best_models fsManifest 1 syncedTwo nowW false).lookup
        (FPath.rootFile 1 bestModelsName) = some (Content.manifest es2) ∧
      alookup es2 "Finkel" = some e1 ∧ alookup es2 "Masters" = some e2 ∧
      entryDate e1 = entryDate e2 ∧ entryTime e1 = entryTime e2 :=
  update_dest_best_models_same_stamp fsManifest 1 syncedTwo nowW (by decide)
    "Finkel" "Masters" "model_002.json" "model_003.json" (by decide) (by decide)

end ImportModels

namespace ImportModels

theorem mem_modelFilesIn (fs : FS) (root : RootId) (cat : String) (n : String) :
    n ∈ modelFilesIn fs root cat ↔
      matchesModelGlob n = true ∧ ∃ c0, (FPath.catFile root cat n, c0) ∈ fs.files := by
  unfold modelFilesIn
  rw [List.mem_dedup, List.mem_filterMap]
  constructor
  · rintro ⟨e, he, hf⟩
    obtain ⟨p, c0⟩ := e
    cases p with
    | rootFile r nm => cases hf
    | catFile r c nm =>
        dsimp only at hf
        by_cases hc : r = root ∧ c = cat ∧ matchesModelGlob nm = true
        · rw [if_pos hc] at hf
          cases hf
          obtain ⟨h1, h2, h3⟩ := hc
          subst h1; subst h2
          exact ⟨h3, c0, he⟩
        · rw [if_neg hc] at hf
          cases hf
  · rintro ⟨hg, c0, hmem⟩
    refine ⟨(FPath.catFile root cat n, c0), hmem, ?_⟩
    dsimp only
    rw [if_pos ⟨rfl, rfl, hg⟩]

theorem mem_categories (fs : FS) (root : RootId) (c : String) :
    c ∈ categories fs root ↔
      ∃ n c0, (FPath.catFile root c n, c0) ∈ fs.files := by
  unfold categories
  rw [List.mem_dedup, List.mem_filterMap]
  constructor
  · rintro ⟨e, he, hf⟩
    obtain ⟨p, c0⟩ := e
    cases p with
    | rootFile r nm => cases hf
    | catFile r c2 nm =>
        dsimp only at hf
        by_cases hr : r = root
        · rw [if_pos hr] at hf
          cases hf
          subst hr
          exact ⟨nm, c0, he⟩
        · rw [if_neg hr] at hf
          cases hf
  · rintro ⟨n, c0, hmem⟩
    refine ⟨(FPath.catFile root c n, c0), hmem, ?_⟩
    dsimp only
    rw [if_pos rfl]

theorem cleanupFiles_frame (root : RootId) (best : List (String × String))
    (cat : String) (dr : Bool) (ns : List String) :
    ∀ (fsc : FS) (q : FPath), (∀ n, n ∈ ns → q ≠ FPath.catFile root cat n) →
      (exceptState (cleanupFiles root best cat dr fsc ns)).lookup q = fsc.lookup q := by
  induction ns with
  | nil => intro fsc q _; rfl
  | cons name rest ih =>
      intro fsc q hq
      unfold cleanupFiles
      by_cases h1 : (cat, name) ∈ best
      · rw [if_pos h1]
        exact ih fsc q (fun n hn => hq n (List.mem_cons_of_mem _ hn))
      · rw [if_neg h1]
        by_cases h2 : dr = true
        · subst h2
          rw [if_pos rfl]
          exact ih fsc q (fun n hn => hq n (List.mem_cons_of_mem _ hn))
        · rw [if_neg h2]
          by_cases h3 : fsc.unlinkFail (FPath.catFile root cat name) = true
          · rw [if_pos h3]
            rfl
          · rw [if_neg h3]
            rw [ih _ q (fun n hn => hq n (List.mem_cons_of_mem _ hn))]
            rw [FS.lookup_erase, if_neg (hq name (List.mem_cons_self _ _))]

theorem cleanupCats_frame (fs0 : FS) (root : RootId)
    (best : List (String × String)) (dr : Bool) (cats : List String) :
    ∀ (fsc : FS) (q : FPath),
      ((∃ r n, q = FPath.rootFile r n) ∨
        (∃ r c n, q = FPath.catFile r c n ∧
          (matchesModelGlob n = false ∨ hiddenName c = true ∨ r ≠ root))) →
      (exceptState (cleanupCats fs0 root best dr fsc cats)).lookup q = fsc.lookup q := by
  induction cats with
  | nil => intro fsc q _; rfl
  | cons cat rest ih =>
      intro fsc q hq
      unfold cleanupCats
      by_cases h1 : hiddenName cat = true
      · rw [if_pos h1]
        exact ih fsc q hq
      · rw [if_neg h1]
        have hfr : ∀ n, n ∈ modelFilesIn fs0 root cat →
            q ≠ FPath.catFile root cat n := by
          intro n hn he
          have hg := ((mem_modelFilesIn fs0 root cat n).mp hn).1
          rcases hq with ⟨r, nm, hrn⟩ | ⟨r, c, nm, hrn, hcond⟩
          · rw [hrn] at he; cases he
          · rw [hrn] at he
            injection he with e1 e2 e3
            subst e1; subst e2; subst e3
            rcases hcond with h | h | h
            · rw [hg] at h; cases h
            · rw [h] at h1; exact h1 rfl
            · exact h rfl
        cases hm : cleanupFiles root best cat dr fsc (modelFilesIn fs0 root cat) with
        | ok fs1 =>
            have hf := cleanupFiles_frame root best cat dr (modelFilesIn fs0 root cat)
              fsc q hfr
            rw [hm] at hf
            rw [ih fs1 q hq]
            exact hf
        | error fse =>
            have hf := cleanupFiles_frame root best cat dr (modelFilesIn fs0 root cat)
              fsc q hfr
            rw [hm] at hf
            exact hf

/-- C10: cleanup_old_models never deletes a file directly at the top level
of the destination root (in particular the manifest best_models.json and
its temporary sibling best_models.json.tmp), never deletes a file whose
name does not match the glob "model_*.json", and never touches files in
hidden category directories - this holds for the state it leaves behind
even when an unlink raises. -/
theorem cleanup_old_models_frame (fs : FS) (root : RootId) (dr : Bool) (q : FPath)
    (hq : (∃ r n, q = FPath.rootFile r n) ∨
      (∃ r c n, q = FPath.catFile r c n ∧
        (matchesModelGlob n = false ∨ hiddenName c = true ∨ r ≠ root))) :
    (exceptState (cleanup_old_models fs root dr)).lookup q = fs.lookup q := by
  unfold cleanup_old_models
  by_cases h1 : (fs.lookup (FPath.rootFile root bestModelsName)).isSome = false
  · rw [if_pos h1]
    rfl
  · rw [if_neg h1]
    cases hm : readManifest fs (FPath.rootFile root bestModelsName) with
    | error e => rfl
    | ok dest_best =>
        exact cleanupCats_frame fs root (bestPairs dest_best) dr
          (categories fs root) fs q hq

end ImportModels

namespace ImportModels

theorem alookup_mem {α β : Type} [DecidableEq α] (l : List (α × β)) (k : α) (v : β)
    (h : alookup l k = some v) : (k, v) ∈ l := by
  induction l with
  | nil => cases h
  | cons hd t ih =>
      obtain ⟨a, b⟩ := hd
      simp only [alookup] at h
      by_cases ha : a = k
      · rw [if_pos ha] at h
        cases h
        rw [ha]
        exact List.mem_cons_self _ _
      · rw [if_neg ha] at h
        exact List.mem_cons_of_mem _ (ih h)

theorem cleanupFiles_ok (root : RootId) (best : List (String × String))
    (cat : String) (ns : List String) :
    ∀ (fsc : FS), (∀ p, fsc.unlinkFail p = false) →
    ∃ fs1, cleanupFiles root best cat false fsc ns = Except.ok fs1 ∧
      (∀ p, fs1.unlinkFail p = fsc.unlinkFail p) ∧
      (∀ q, fs1.lookup q =
        if ∃ n, n ∈ ns ∧ q = FPath.catFile root cat n ∧ (cat, n) ∉ best
        then none else fsc.lookup q) := by
  induction ns with
  | nil =>
      intro fsc _
      refine ⟨fsc, rfl, fun p => rfl, fun q => ?_⟩
      rw [if_neg]
      rintro ⟨n, hn, _⟩
      cases hn
  | cons name rest ih =>
      intro fsc hUF
      simp only [cleanupFiles]
      by_cases h1 : (cat, name) ∈ best
      · rw [if_pos h1]
        obtain ⟨fs1, heq, hu, hl⟩ := ih fsc hUF
        refine ⟨fs1, heq, hu, fun q => ?_⟩
        rw [hl q]
        by_cases hEx : ∃ n, n ∈ rest ∧ q = FPath.catFile root cat n ∧ (cat, n) ∉ best
        · have hEx2 : ∃ n, n ∈ name :: rest ∧ q = FPath.catFile root cat n ∧
              (cat, n) ∉ best := by
            obtain ⟨n, hn, hq2, hb⟩ := hEx
            exact ⟨n, List.mem_cons_of_mem _ hn, hq2, hb⟩
          rw [if_pos hEx, if_pos hEx2]
        · have hEx2 : ¬∃ n, n ∈ name :: rest ∧ q = FPath.catFile root cat n ∧
              (cat, n) ∉ best := by
            rintro ⟨n, hn, hq2, hb⟩
            rcases List.mem_cons.mp hn with he | hn2
            · subst he
              exact hb h1
            · exact hEx ⟨n, hn2, hq2, hb⟩
          rw [if_neg hEx, if_neg hEx2]
      · rw [if_neg h1, if_neg Bool.false_ne_true,
          hUF (FPath.catFile root cat name), if_neg Bool.false_ne_true]
        obtain ⟨fs1, heq, hu, hl⟩ :=
          ih (fsc.erase (FPath.catFile root cat name)) (fun p => hUF p)
        refine ⟨fs1, heq, fun p => hu p, fun q => ?_⟩
        rw [hl q, FS.lookup_erase]
        by_cases hq : q = FPath.catFile root cat name
        · have hEx2 : ∃ n, n ∈ name :: rest ∧ q = FPath.catFile root cat n ∧
              (cat, n) ∉ best := ⟨name, List.mem_cons_self _ _, hq, h1⟩
          rw [if_pos hEx2]
          by_cases hEx : ∃ n, n ∈ rest ∧ q = FPath.catFile root cat n ∧ (cat, n) ∉ best
          · rw [if_pos hEx]
          · rw [if_neg hEx, if_pos hq]
        · rw [if_neg hq]
          by_cases hEx : ∃ n, n ∈ rest ∧ q = FPath.catFile root cat n ∧ (cat, n) ∉ best
          · have hEx2 : ∃ n, n ∈ name :: rest ∧ q = FPath.catFile root cat n ∧
                (cat, n) ∉ best := by
              obtain ⟨n, hn, hq2, hb⟩ := hEx
              exact ⟨n, List.mem_cons_of_mem _ hn, hq2, hb⟩
            rw [if_pos hEx, if_pos hEx2]
          · have hEx2 : ¬∃ n, n ∈ name :: rest ∧ q = FPath.catFile root cat n ∧
                (cat, n) ∉ best := by
              rintro ⟨n, hn, hq2, hb⟩
              rcases List.mem_cons.mp hn with he | hn2
              · subst he
                exact hq hq2
              · exact hEx ⟨n, hn2, hq2, hb⟩
            rw [if_neg hEx, if_neg hEx2]

theorem cleanupCats_ok (fs0 : FS) (root : RootId) (best : List (String × String))
    (cats : List String) :
    ∀ (fsc : FS), (∀ p, fsc.unlinkFail p = false) →
    ∃ fs1, cleanupCats fs0 root best false fsc cats = Except.ok fs1 ∧
      (∀ p, fs1.unlinkFail p = fsc.unlinkFail p) ∧
      (∀ q, fs1.lookup q =
        if ∃ c, c ∈ cats ∧ hiddenName c = false ∧
            ∃ n, n ∈ modelFilesIn fs0 root c ∧ q = FPath.catFile root c n ∧
              (c, n) ∉ best
        then none else fsc.lookup q) := by
  induction cats with
  | nil =>
      intro fsc _
      refine ⟨fsc, rfl, fun p => rfl, fun q => ?_⟩
      rw [if_neg]
      rintro ⟨c, hc, _⟩
      cases hc
  | cons cat rest ih =>
      intro fsc hUF
      simp only [cleanupCats]
      by_cases h1 : hiddenName cat = true
      · rw [if_pos h1]
        obtain ⟨fs1, heq, hu, hl⟩ := ih fsc hUF
        refine ⟨fs1, heq, hu, fun q => ?_⟩
        rw [hl q]
        by_cases hEx : ∃ c, c ∈ rest ∧ hiddenName c = false ∧
            ∃ n, n ∈ modelFilesIn fs0 root c ∧ q = FPath.catFile root c n ∧
              (c, n) ∉ best
        · have hEx2 : ∃ c, c ∈ cat :: rest ∧ hiddenName c = false ∧
              ∃ n, n ∈ modelFilesIn fs0 root c ∧ q = FPath.catFile root c n ∧
                (c, n) ∉ best := by
            obtain ⟨c, hc, hh, hrest⟩ := hEx
            exact ⟨c, List.mem_cons_of_mem _ hc, hh, hrest⟩
          rw [if_pos hEx, if_pos hEx2]
        · have hEx2 : ¬∃ c, c ∈ cat :: rest ∧ hiddenName c = false ∧
              ∃ n, n ∈ modelFilesIn fs0 root c ∧ q = FPath.catFile root c n ∧
                (c, n) ∉ best := by
            rintro ⟨c, hc, hh, hrest⟩
            rcases List.mem_cons.mp hc with he | hc2
            · subst he
              rw [h1] at hh
              cases hh
            · exact hEx ⟨c, hc2, hh, hrest⟩
          rw [if_neg hEx, if_neg hEx2]
      · rw [if_neg h1]
        have h1f : hiddenName cat = false := Bool.eq_false_iff.mpr h1
        obtain ⟨fsA, heqA, huA, hlA⟩ :=
          cleanupFiles_ok root best cat (modelFilesIn fs0 root cat) fsc hUF
        rw [heqA]
        obtain ⟨fs1, heq, hu, hl⟩ := ih fsA (fun p => by rw [huA p]; exact hUF p)
        refine ⟨fs1, heq, fun p => by rw [hu p]; exact huA p, fun q => ?_⟩
        rw [hl q, hlA q]
        by_cases hCat : ∃ n, n ∈ modelFilesIn fs0 root cat ∧
            q = FPath.catFile root cat n ∧ (cat, n) ∉ best
        · have hEx2 : ∃ c, c ∈ cat :: rest ∧ hiddenName c = false ∧
              ∃ n, n ∈ modelFilesIn fs0 root c ∧ q = FPath.catFile root c n ∧
                (c, n) ∉ best := ⟨cat, List.mem_cons_self _ _, h1f, hCat⟩
          rw [if_pos hCat, if_pos hEx2]
          by_cases hEx : ∃ c, c ∈ rest ∧ hiddenName c = false ∧
              ∃ n, n ∈ modelFilesIn fs0 root c ∧ q = FPath.catFile root c n ∧
                (c, n) ∉ best
          · rw [if_pos hEx]
          · rw [if_neg hEx]
        · rw [if_neg hCat]
          by_cases hEx : ∃ c, c ∈ rest ∧ hiddenName c = false ∧
              ∃ n, n ∈ modelFilesIn fs0 root c ∧ q = FPath.catFile root c n ∧
                (c, n) ∉ best
          · have hEx2 : ∃ c, c ∈ cat :: rest ∧ hiddenName c = false ∧
                ∃ n, n ∈ modelFilesIn fs0 root c ∧ q = FPath.catFile root c n ∧
                  (c, n) ∉ best := by
              obtain ⟨c, hc, hh, hrest⟩ := hEx
              exact ⟨c, List.mem_cons_of_mem _ hc, hh, hrest⟩
            rw [if_pos hEx, if_pos hEx2]
          · have hEx2 : ¬∃ c, c ∈ cat :: rest ∧ hiddenName c = false ∧
                ∃ n, n ∈ modelFilesIn fs0 root c ∧ q = FPath.catFile root c n ∧
                  (c, n) ∉ best := by
              rintro ⟨c, hc, hh, hrest⟩
              rcases List.mem_cons.mp hc with he | hc2
              · subst he
                exact hCat hrest
              · exact hEx ⟨c, hc2, hh, hrest⟩
            rw [if_neg hEx, if_neg hEx2]

end ImportModels

namespace ImportModels

/-- Characterization of the files the cleanup pass deletes: a file of a
category directory of destRoot, in a non-hidden category, matching
"model_*.json", whose (category, filename) pair the manifest does not
protect. -/
def cleanupDeletes (root : RootId) (es : List (String × JEntry)) : FPath → Bool
  | FPath.rootFile _ _ => false
  | FPath.catFile r c n =>
      decide (r = root) && !(hiddenName c) && matchesModelGlob n &&
        !(decide ((c, n) ∈ bestPairs es))

theorem cleanupDeletes_catFile (root : RootId) (es : List (String × JEntry))
    (r : RootId) (c n : String) :
    cleanupDeletes root es (FPath.catFile r c n) = true ↔
      r = root ∧ hiddenName c = false ∧ matchesModelGlob n = true ∧
        (c, n) ∉ bestPairs es := by
  unfold cleanupDeletes
  simp [Bool.and_eq_true, decide_eq_true_eq, Bool.not_eq_true',
    and_assoc]

/-- C2: with a readable destination manifest and no unlink failures,
cleanup_old_models succeeds and afterwards a path holds a file exactly
when it held one before and is not a non-hidden-category "model_*.json"
file left unprotected by the manifest: those files and only those are
deleted. -/
theorem cleanup_old_models_exact (fs : FS) (root : RootId)
    (es : List (String × JEntry))
    (hm : fs.lookup (FPath.rootFile root bestModelsName) = some (Content.manifest es))
    (hrf : fs.readFail (FPath.rootFile root bestModelsName) = false)
    (hUF : ∀ p, fs.unlinkFail p = false) :
    ∃ fs2, cleanup_old_models fs root false = Except.ok fs2 ∧
      ∀ p, fs2.lookup p =
        if cleanupDeletes root es p = true then none else fs.lookup p := by
  have hs : (fs.lookup (FPath.rootFile root bestModelsName)).isSome = true := by
    rw [hm]; rfl
  have hr : readManifest fs (FPath.rootFile root bestModelsName) = Except.ok es := by
    unfold readManifest
    rw [hrf, if_neg Bool.false_ne_true, hm]
  obtain ⟨fs1, heq, hu, hl⟩ :=
    cleanupCats_ok fs root (bestPairs es) (categories fs root) fs hUF
  have hrun : cleanup_old_models fs root false =
      cleanupCats fs root (bestPairs es) false fs (categories fs root) := by
    simp only [cleanup_old_models]
    rw [hs, if_neg (by decide : ¬(true = false)), hr]
  refine ⟨fs1, by rw [hrun]; exact heq, fun p => ?_⟩
  rw [hl p]
  by_cases hd : cleanupDeletes root es p = true
  · rw [if_pos hd]
    cases p with
    | rootFile r nm => cases hd
    | catFile r c n =>
        obtain ⟨hr2, hh, hg, hb⟩ := (cleanupDeletes_catFile root es r c n).mp hd
        subst hr2
        cases hlp : fs.lookup (FPath.catFile r c n) with
        | some c0 =>
            have hmem : (FPath.catFile r c n, c0) ∈ fs.files :=
              alookup_mem fs.files _ c0 hlp
            have hcat : c ∈ categories fs r :=
              (mem_categories fs r c).mpr ⟨n, c0, hmem⟩
            have hn : n ∈ modelFilesIn fs r c :=
              (mem_modelFilesIn fs r c n).mpr ⟨hg, c0, hmem⟩
            rw [if_pos ⟨c, hcat, hh, n, hn, rfl, hb⟩]
        | none =>
            by_cases hEx : ∃ c2, c2 ∈ categories fs r ∧
                hiddenName c2 = false ∧
                ∃ n2, n2 ∈ modelFilesIn fs r c2 ∧
                  FPath.catFile r c n = FPath.catFile r c2 n2 ∧
                  (c2, n2) ∉ bestPairs es
            · rw [if_pos hEx]
            · rw [if_neg hEx]
  · rw [if_neg hd, if_neg]
    rintro ⟨c, hc, hh, n, hn, hq2, hb⟩
    subst hq2
    have hg := ((mem_modelFilesIn fs root c n).mp hn).1
    exact hd ((cleanupDeletes_catFile root es root c n).mpr ⟨rfl, hh, hg, hb⟩)

/-- Destination tree for the cleanup witnesses: a manifest protecting
Finkel/model_002.json, an unprotected old model, a protected model and a
non-matching file. -/
def esKeep : List (String × JEntry) :=
  [("Finkel", JEntry.wf "model_002.json" "2025-01-01" "01:02:03")]

/-- Destination tree holding the files described by esKeep. -/
def fsCleanup : FS := mkFS
  [(FPath.rootFile 1 bestModelsName, Content.manifest esKeep),
   (FPath.catFile 1 "Finkel" "model_001.json", Content.blob "m1"),
   (FPath.catFile 1 "Finkel" "model_002.json", Content.blob "m2"),
   (FPath.catFile 1 "Finkel" "readme.txt", Content.blob "r")]

theorem cleanup_old_models_exact_witness :
    ∃ fs2, cleanup_old_models fsCleanup 1 false = Except.ok fs2 ∧
      fs2.lookup (FPath.catFile 1 "Finkel" "model_001.json") = none ∧
      fs2.lookup (FPath.catFile 1 "Finkel" "model_002.json") =
        some (Content.blob "m2") ∧
      fs2.lookup (FPath.catFile 1 "Finkel" "readme.txt") = some (Content.blob "r") ∧
      fs2.lookup (FPath.rootFile 1 bestModelsName) =
        some (Content.manifest esKeep) := by
  obtain ⟨fs2, heq, hl⟩ := cleanup_old_models_exact fsCleanup 1 esKeep
    (by decide) (by decide) (fun p => rfl)
  refine ⟨fs2, heq, ?_, ?_, ?_, ?_⟩ <;> rw [hl] <;> decide

theorem cleanup_old_models_frame_witness :
    (exceptState (cleanup_old_models fsCleanup 1 false)).lookup
        (FPath.rootFile 1 bestModelsName) =
      fsCleanup.lookup (FPath.rootFile 1 bestModelsName) ∧
    (exceptState (cleanup_old_models fsCleanup 1 false)).lookup
        (FPath.catFile 1 "Finkel" "readme.txt") =
      fsCleanup.lookup (FPath.catFile 1 "Finkel" "readme.txt") :=
  ⟨cleanup_old_models_frame fsCleanup 1 false _
      (Or.inl ⟨1, bestModelsName, rfl⟩),
    cleanup_old_models_frame fsCleanup 1 false _
      (Or.inr ⟨1, "Finkel", "readme.txt", rfl, Or.inl (by decide)⟩)⟩

/-- A destination tree where unlinking Finkel/model_001.json raises: the
manifest protects nothing, so both model files are up for deletion, and
the first one encountered fails. -/
def unlinkFailTree (b1 b2 : String) : FS :=
  { files := [(FPath.rootFile 1 bestModelsName, Content.manifest []),
      (FPath.catFile 1 "Finkel" "model_001.json", Content.blob b1),
      (FPath.catFile 1 "Finkel" "model_002.json", Content.blob b2)],
    readFail := fun _ => false,
    unlinkFail := fun p => decide (p = FPath.catFile 1 "Finkel" "model_001.json") }

/-- C3 counterexample: deleting the first non-best file raises, and
cleanup_old_models propagates the exception out of the pass instead of
continuing - the run ends in an error with the filesystem untouched, and
in particular the second non-best file, whose own deletion would have
succeeded, is never attempted and survives. -/
theorem cleanup_unlink_error_counterexample :
    cleanup_old_models (unlinkFailTree "m1" "m2") 1 false =
      Except.error (unlinkFailTree "m1" "m2") ∧
    (unlinkFailTree "m1" "m2").lookup
      (FPath.catFile 1 "Finkel" "model_002.json") = some (Content.blob "m2") :=
  ⟨rfl, rfl⟩

/-- C3 amended: model_file.unlink() at line 222 has no exception guard, so
a failure to delete one file aborts the cleanup pass: the error
propagates out of cleanup_old_models with the filesystem as it stood at
the raise, and the remaining non-best files are not attempted (here the
second file survives although the manifest does not protect it). -/
theorem cleanup_unlink_error_aborts (b1 b2 : String) :
    cleanup_old_models (unlinkFailTree b1 b2) 1 false =
      Except.error (unlinkFailTree b1 b2) ∧
    (unlinkFailTree b1 b2).lookup
      (FPath.catFile 1 "Finkel" "model_002.json") = some (Content.blob b2) :=
  ⟨rfl, rfl⟩

end ImportModels

namespace ImportModels

theorem copy_model_file_dry (fs : FS) (src dst : FPath) (ow : Bool) :
    (copy_model_file fs src dst ow true).2 = fs := by
  rw [copy_model_file_state, if_neg]
  rintro ⟨_, h⟩
  cases h

theorem syncBestEntry_dry (srcRoot destRoot : RootId) (ow : Bool)
    (acc : List (String × String) × FS) (it : String × JEntry) :
    (syncBestEntry srcRoot destRoot ow true acc it).2 = acc.2 := by
  unfold syncBestEntry
  cases it.2 with
  | bad raw => rfl
  | wf mf d t =>
      dsimp only
      by_cases h1 : (acc.2.lookup (FPath.catFile srcRoot it.1 mf)).isSome = false
      · rw [if_pos h1]
      · rw [if_neg h1]
        by_cases h2 : (copy_model_file acc.2 (FPath.catFile srcRoot it.1 mf)
            (FPath.catFile destRoot it.1 mf) ow true).1 = true
        · rw [if_pos h2]
          exact copy_model_file_dry _ _ _ _
        · rw [if_neg h2]
          exact copy_model_file_dry _ _ _ _

theorem sync_best_models_dry (fs : FS) (srcRoot destRoot : RootId) (ow : Bool) :
    (sync_best_models fs srcRoot destRoot ow true).2 = fs := by
  unfold sync_best_models
  by_cases h1 : (fs.lookup (FPath.rootFile srcRoot bestModelsName)).isSome = false
  · rw [if_pos h1]
  · rw [if_neg h1]
    cases readManifest fs (FPath.rootFile srcRoot bestModelsName) with
    | error e => rfl
    | ok entries =>
        dsimp only
        have hfold : ∀ (l : List (String × JEntry)) (acc : List (String × String) × FS),
            (l.foldl (syncBestEntry srcRoot destRoot ow true) acc).2 = acc.2 := by
          intro l
          induction l with
          | nil => intro acc; rfl
          | cons hd t ih =>
              intro acc
              rw [List.foldl_cons, ih _, syncBestEntry_dry]
        exact hfold entries ([], fs)

theorem syncAllFile_dry (srcRoot destRoot : RootId) (cat : String) (ow : Bool)
    (acc : List (String × String) × FS) (name : String) :
    (syncAllFile srcRoot destRoot cat ow true acc name).2 = acc.2 := by
  unfold syncAllFile
  dsimp only
  by_cases h2 : (copy_model_file acc.2 (FPath.catFile srcRoot cat name)
      (FPath.catFile destRoot cat name) ow true).1 = true
  · rw [if_pos h2]
    exact copy_model_file_dry _ _ _ _
  · rw [if_neg h2]
    exact copy_model_file_dry _ _ _ _

theorem sync_all_models_dry (fs : FS) (srcRoot destRoot : RootId) (ow : Bool) :
    (sync_all_models fs srcRoot destRoot ow true).2 = fs := by
  unfold sync_all_models
  have hcat : ∀ (cats : List String) (acc : List (String × String) × FS),
      (cats.foldl (syncAllCat fs srcRoot destRoot ow true) acc).2 = acc.2 := by
    intro cats
    induction cats with
    | nil => intro acc; rfl
    | cons cat rest ih =>
        intro acc
        rw [List.foldl_cons, ih _]
        unfold syncAllCat
        by_cases h1 : hiddenName cat = true
        · rw [if_pos h1]
        · rw [if_neg h1]
          have hfile : ∀ (ns : List String) (acc2 : List (String × String) × FS),
              (ns.foldl (syncAllFile srcRoot destRoot cat ow true) acc2).2 = acc2.2 := by
            intro ns
            induction ns with
            | nil => intro acc2; rfl
            | cons n2 t2 ih2 =>
                intro acc2
                rw [List.foldl_cons, ih2 _, syncAllFile_dry]
          exact hfile _ acc
  exact hcat (categories fs srcRoot) ([], fs)

theorem update_dest_best_models_dry (fs : FS) (root : RootId)
    (synced : List (String × String)) (now : Now) :
    update_dest_best_models fs root synced now true = fs := by
  unfold update_dest_best_models
  by_cases he : synced.isEmpty = true
  · rw [if_pos he]
  · rw [if_neg he]
    rfl

theorem cleanupFiles_dry (root : RootId) (best : List (String × String))
    (cat : String) (ns : List String) :
    ∀ (fsc : FS), cleanupFiles root best cat true fsc ns = Except.ok fsc := by
  induction ns with
  | nil => intro fsc; rfl
  | cons name rest ih =>
      intro fsc
      simp only [cleanupFiles]
      by_cases h1 : (cat, name) ∈ best
      · rw [if_pos h1]
        exact ih fsc
      · rw [if_neg h1, if_pos trivial]
        exact ih fsc

theorem cleanupCats_dry (fs0 : FS) (root : RootId) (best : List (String × String))
    (cats : List String) :
    ∀ (fsc : FS), cleanupCats fs0 root best true fsc cats = Except.ok fsc := by
  induction cats with
  | nil => intro fsc; rfl
  | cons cat rest ih =>
      intro fsc
      simp only [cleanupCats]
      by_cases h1 : hiddenName cat = true
      · rw [if_pos h1]
        exact ih fsc
      · rw [if_neg h1, cleanupFiles_dry]
        exact ih fsc

theorem cleanup_old_models_dry (fs : FS) (root : RootId) :
    cleanup_old_models fs root true = Except.ok fs := by
  unfold cleanup_old_models
  by_cases h1 : (fs.lookup (FPath.rootFile root bestModelsName)).isSome = false
  · rw [if_pos h1]
  · rw [if_neg h1]
    cases readManifest fs (FPath.rootFile root bestModelsName) with
    | error e => rfl
    | ok dest_best => exact cleanupCats_dry fs root (bestPairs dest_best) _ fs

/-- C5: a run with dry_run true mutates nothing - the whole pipeline, and
each of its passes individually, returns the filesystem unchanged, so
every destination file and the destination manifest are byte-for-byte what
they were - while each copy/skip decision of copy_model_file (for an
existing source file) is the same one a live run would take from the same
pre-state. -/
theorem dry_run_no_mutation (fs : FS) (srcRoot destRoot : RootId)
    (allMode cleanupFlag overwrite : Bool) (now : Now)
    (synced : List (String × String)) (src dst : FPath) (ow2 : Bool)
    (hsrc : (fs.lookup src).isSome = true) :
    run_import fs srcRoot destRoot allMode cleanupFlag overwrite true now =
      Except.ok fs ∧
    (sync_all_models fs srcRoot destRoot overwrite true).2 = fs ∧
    (sync_best_models fs srcRoot destRoot overwrite true).2 = fs ∧
    update_dest_best_models fs destRoot synced now true = fs ∧
    cleanup_old_models fs destRoot true = Except.ok fs ∧
    (copy_model_file fs src dst ow2 true).1 = (copy_model_file fs src dst ow2 false).1 := by
  refine ⟨?_, sync_all_models_dry fs srcRoot destRoot overwrite,
    sync_best_models_dry fs srcRoot destRoot overwrite,
    update_dest_best_models_dry fs destRoot synced now,
    cleanup_old_models_dry fs destRoot,
    by rw [copy_model_file_fst, copy_model_file_fst]⟩
  have hsync : (if allMode = true then sync_all_models fs srcRoot destRoot overwrite true
      else sync_best_models fs srcRoot destRoot overwrite true).2 = fs := by
    cases allMode with
    | true =>
        show (sync_all_models fs srcRoot destRoot overwrite true).2 = fs
        exact sync_all_models_dry fs srcRoot destRoot overwrite
    | false =>
        show (sync_best_models fs srcRoot destRoot overwrite true).2 = fs
        exact sync_best_models_dry fs srcRoot destRoot overwrite
  simp only [run_import]
  generalize hsr : (if allMode = true then sync_all_models fs srcRoot destRoot overwrite true
      else sync_best_models fs srcRoot destRoot overwrite true) = sr
  rw [hsr] at hsync
  have hX : (if sr.1.isEmpty = true then sr.2
      else update_dest_best_models sr.2 destRoot sr.1 now true) = fs := by
    by_cases he : sr.1.isEmpty = true
    · rw [if_pos he]
      exact hsync
    · rw [if_neg he, update_dest_best_models_dry]
      exact hsync
  rw [hX]
  by_cases hc : cleanupFlag = true
  · rw [if_pos hc]
    exact cleanup_old_models_dry fs destRoot
  · rw [if_neg hc]

end ImportModels

namespace ImportModels

theorem lexLe_total (a : List Char) : ∀ b, lexLe a b = true ∨ lexLe b a = true := by
  induction a with
  | nil => intro b; exact Or.inl rfl
  | cons x xs ih =>
      intro b
      cases b with
      | nil => exact Or.inr rfl
      | cons y ys =>
          by_cases h1 : x.toNat < y.toNat
          · refine Or.inl ?_
            unfold lexLe
            rw [if_pos h1]
          · by_cases h2 : y.toNat < x.toNat
            · refine Or.inr ?_
              unfold lexLe
              rw [if_pos h2]
            · rcases ih ys with h | h
              · refine Or.inl ?_
                unfold lexLe
                rw [if_neg h1, if_neg h2]
                exact h
              · refine Or.inr ?_
                unfold lexLe
                rw [if_neg h2, if_neg h1]
                exact h

theorem lexLe_trans : ∀ (a b c : List Char),
    lexLe a b = true → lexLe b c = true → lexLe a c = true := by
  intro a
  induction a with
  | nil => intro b c _ _; rfl
  | cons x xs ih =>
      intro b c hab hbc
      cases b with
      | nil => cases hab
      | cons y ys =>
          cases c with
          | nil => cases hbc
          | cons z zs =>
              unfold lexLe at hab hbc ⊢
              by_cases h1 : x.toNat < y.toNat
              · by_cases h2 : y.toNat < z.toNat
                · rw [if_pos (by omega : x.toNat < z.toNat)]
                · by_cases h3 : z.toNat < y.toNat
                  · rw [if_neg h2, if_pos h3] at hbc
                    cases hbc
                  · rw [if_pos (by omega : x.toNat < z.toNat)]
              · by_cases h4 : y.toNat < x.toNat
                · rw [if_neg h1, if_pos h4] at hab
                  cases hab
                · rw [if_neg h1, if_neg h4] at hab
                  by_cases h2 : y.toNat < z.toNat
                  · rw [if_pos (by omega : x.toNat < z.toNat)]
                  · by_cases h3 : z.toNat < y.toNat
                    · rw [if_neg h2, if_pos h3] at hbc
                      cases hbc
                    · rw [if_neg h2, if_neg h3] at hbc
                      rw [if_neg (by omega : ¬x.toNat < z.toNat),
                        if_neg (by omega : ¬z.toNat < x.toNat)]
                      exact ih ys zs hab hbc

instance : IsTotal String (fun a b => strLe a b = true) :=
  ⟨fun a b => lexLe_total a.data b.data⟩

instance : IsTrans String (fun a b => strLe a b = true) :=
  ⟨fun a b c hab hbc => lexLe_trans a.data b.data c.data hab hbc⟩

end ImportModels

namespace ImportModels

theorem copy_model_file_congr (fs1 fs2 : FS) (src dst : FPath) (ow dr : Bool)
    (hs : fs1.lookup src = fs2.lookup src) (hd : fs1.lookup dst = fs2.lookup dst)
    (hrs : fs1.readFail src = fs2.readFail src)
    (hrd : fs1.readFail dst = fs2.readFail dst) :
    (copy_model_file fs1 src dst ow dr).1 = (copy_model_file fs2 src dst ow dr).1 := by
  rw [copy_model_file_fst, copy_model_file_fst, hs, hd, hrs, hrd]

theorem copy_model_file_lookup_other (fs : FS) (src dst : FPath) (ow dr : Bool)
    (q : FPath) (hq : q ≠ dst) :
    (copy_model_file fs src dst ow dr).2.lookup q = fs.lookup q := by
  rw [copy_model_file_state]
  by_cases h : (copy_model_file fs src dst ow dr).1 = true ∧ dr = false
  · rw [if_pos h]
    unfold FS.copy2
    cases hs : fs.lookup src with
    | none => rfl
    | some c => rw [FS.lookup_write, if_neg hq]
  · rw [if_neg h]

theorem copy_model_file_readFail2 (fs : FS) (src dst : FPath) (ow dr : Bool) :
    (copy_model_file fs src dst ow dr).2.readFail = fs.readFail := by
  rw [copy_model_file_state]
  by_cases h : (copy_model_file fs src dst ow dr).1 = true ∧ dr = false
  · rw [if_pos h]
    exact FS.readFail_copy2 fs src dst
  · rw [if_neg h]

/-- The copy/skip decision sync_all_models takes for one file of one
category, evaluated against the pre-run filesystem. -/
def syncDecision (fs : FS) (srcRoot destRoot : RootId) (cat : String)
    (ow dr : Bool) (n : String) : Bool :=
  (copy_model_file fs (FPath.catFile srcRoot cat n)
    (FPath.catFile destRoot cat n) ow dr).1

/-- The sync result of sync_all_models as a pure fold over the pre-run
filesystem: per category, in sorted file order, record the file whenever
its copy decision is positive (last one wins). -/
def syncAllResult (fs : FS) (srcRoot destRoot : RootId) (ow dr : Bool)
    (m : List (String × String)) (cats : List String) : List (String × String) :=
  cats.foldl (fun m2 c =>
    if hiddenName c = true then m2
    else (sortedModelFiles fs srcRoot c).foldl
      (fun m3 n => if syncDecision fs srcRoot destRoot c ow dr n = true
        then aupsert m3 c n else m3) m2) m

theorem syncAllFiles_sim (fs : FS) (srcRoot destRoot : RootId) (cat : String)
    (ow dr : Bool) (hroot : srcRoot ≠ destRoot) :
    ∀ (ns : List String), ns.Nodup →
    ∀ (m1 : List (String × String)) (fs1 : FS),
      fs1.readFail = fs.readFail →
      (∀ c n, fs1.lookup (FPath.catFile srcRoot c n) =
        fs.lookup (FPath.catFile srcRoot c n)) →
      (∀ n ∈ ns, fs1.lookup (FPath.catFile destRoot cat n) =
        fs.lookup (FPath.catFile destRoot cat n)) →
      (ns.foldl (syncAllFile srcRoot destRoot cat ow dr) (m1, fs1)).1 =
        ns.foldl (fun m3 n => if syncDecision fs srcRoot destRoot cat ow dr n = true
          then aupsert m3 cat n else m3) m1 ∧
      (ns.foldl (syncAllFile srcRoot destRoot cat ow dr) (m1, fs1)).2.readFail =
        fs.readFail ∧
      (∀ c n, (ns.foldl (syncAllFile srcRoot destRoot cat ow dr) (m1, fs1)).2.lookup
        (FPath.catFile srcRoot c n) = fs.lookup (FPath.catFile srcRoot c n)) ∧
      (∀ q, (∀ n ∈ ns, q ≠ FPath.catFile destRoot cat n) →
        (ns.foldl (syncAllFile srcRoot destRoot cat ow dr) (m1, fs1)).2.lookup q =
          fs1.lookup q) := by
  intro ns
  induction ns with
  | nil =>
      intro _ m1 fs1 hrf hsrcAll _
      exact ⟨rfl, hrf, hsrcAll, fun q _ => rfl⟩
  | cons n0 rest ih =>
      intro hnd m1 fs1 hrf hsrcAll hdst
      rw [List.nodup_cons] at hnd
      have hps : FPath.catFile srcRoot cat n0 ≠ FPath.catFile destRoot cat n0 := by
        intro h
        injection h with h1 _ _
        exact hroot h1
      have hdec : (copy_model_file fs1 (FPath.catFile srcRoot cat n0)
          (FPath.catFile destRoot cat n0) ow dr).1 =
          syncDecision fs srcRoot destRoot cat ow dr n0 :=
        copy_model_file_congr fs1 fs _ _ ow dr (hsrcAll cat n0)
          (hdst n0 (List.mem_cons_self _ _)) (congrFun hrf _) (congrFun hrf _)
      have hstep : ∀ m2 : List (String × String),
          syncAllFile srcRoot destRoot cat ow dr (m2, fs1) n0 =
            (if syncDecision fs srcRoot destRoot cat ow dr n0 = true
              then aupsert m2 cat n0 else m2,
             (copy_model_file fs1 (FPath.catFile srcRoot cat n0)
               (FPath.catFile destRoot cat n0) ow dr).2) := by
        intro m2
        unfold syncAllFile
        dsimp only
        rw [hdec]
        by_cases hb : syncDecision fs srcRoot destRoot cat ow dr n0 = true
        · rw [if_pos hb, if_pos hb]
        · rw [if_neg hb, if_neg hb]
      have hfs2rf : (copy_model_file fs1 (FPath.catFile srcRoot cat n0)
          (FPath.catFile destRoot cat n0) ow dr).2.readFail = fs.readFail := by
        rw [copy_model_file_readFail2]
        exact hrf
      have hfs2src : ∀ c n, (copy_model_file fs1 (FPath.catFile srcRoot cat n0)
          (FPath.catFile destRoot cat n0) ow dr).2.lookup (FPath.catFile srcRoot c n) =
          fs.lookup (FPath.catFile srcRoot c n) := by
        intro c n
        rw [copy_model_file_lookup_other]
        · exact hsrcAll c n
        · intro h
          injection h with h1 _ _
          exact hroot h1
      have hfs2dst : ∀ n ∈ rest, (copy_model_file fs1 (FPath.catFile srcRoot cat n0)
          (FPath.catFile destRoot cat n0) ow dr).2.lookup
            (FPath.catFile destRoot cat n) =
          fs.lookup (FPath.catFile destRoot cat n) := by
        intro n hn
        rw [copy_model_file_lookup_other]
        · exact hdst n (List.mem_cons_of_mem _ hn)
        · intro h
          injection h with _ _ h3
          exact hnd.1 (h3 ▸ hn)
      obtain ⟨ihres, ihrf, ihsrc, ihframe⟩ := ih hnd.2
        (if syncDecision fs srcRoot destRoot cat ow dr n0 = true
          then aupsert m1 cat n0 else m1)
        ((copy_model_file fs1 (FPath.catFile srcRoot cat n0)
          (FPath.catFile destRoot cat n0) ow dr).2)
        hfs2rf hfs2src hfs2dst
      rw [List.foldl_cons, List.foldl_cons, hstep m1]
      refine ⟨ihres, ihrf, ihsrc, ?_⟩
      intro q hq
      rw [ihframe q (fun n hn => hq n (List.mem_cons_of_mem _ hn)),
        copy_model_file_lookup_other]
      exact hq n0 (List.mem_cons_self _ _)

end ImportModels

namespace ImportModels

theorem sortedModelFiles_nodup (fs : FS) (root : RootId) (cat : String) :
    (sortedModelFiles fs root cat).Nodup :=
  (List.perm_insertionSort _ _).nodup_iff.mpr (List.nodup_dedup _)

theorem syncAllCats_sim (fs : FS) (srcRoot destRoot : RootId) (ow dr : Bool)
    (hroot : srcRoot ≠ destRoot) :
    ∀ (cats : List String), cats.Nodup →
    ∀ (m1 : List (String × String)) (fs1 : FS),
      fs1.readFail = fs.readFail →
      (∀ c n, fs1.lookup (FPath.catFile srcRoot c n) =
        fs.lookup (FPath.catFile srcRoot c n)) →
      (∀ c ∈ cats, ∀ n, fs1.lookup (FPath.catFile destRoot c n) =
        fs.lookup (FPath.catFile destRoot c n)) →
      (cats.foldl (syncAllCat fs srcRoot destRoot ow dr) (m1, fs1)).1 =
        syncAllResult fs srcRoot destRoot ow dr m1 cats ∧
      (∀ q, (∀ c ∈ cats, ∀ n, q ≠ FPath.catFile destRoot c n) →
        (cats.foldl (syncAllCat fs srcRoot destRoot ow dr) (m1, fs1)).2.lookup q =
          fs1.lookup q) := by
  intro cats
  induction cats with
  | nil =>
      intro _ m1 fs1 _ _ _
      exact ⟨rfl, fun q _ => rfl⟩
  | cons cat rest ih =>
      intro hnd m1 fs1 hrf hsrcAll hdst
      rw [List.nodup_cons] at hnd
      rw [List.foldl_cons]
      by_cases hh : hiddenName cat = true
      · have hstep : syncAllCat fs srcRoot destRoot ow dr (m1, fs1) cat = (m1, fs1) := by
          unfold syncAllCat
          rw [if_pos hh]
        rw [hstep]
        obtain ⟨ihres, ihframe⟩ := ih hnd.2 m1 fs1 hrf hsrcAll
          (fun c hc n => hdst c (List.mem_cons_of_mem _ hc) n)
        refine ⟨?_, ?_⟩
        · rw [ihres]
          unfold syncAllResult
          rw [List.foldl_cons, if_pos hh]
        · intro q hq
          exact ihframe q (fun c hc n => hq c (List.mem_cons_of_mem _ hc) n)
      · have hstep : syncAllCat fs srcRoot destRoot ow dr (m1, fs1) cat =
            (sortedModelFiles fs srcRoot cat).foldl
              (syncAllFile srcRoot destRoot cat ow dr) (m1, fs1) := by
          unfold syncAllCat
          rw [if_neg hh]
        obtain ⟨hres1, hrf1, hsrc1, hframe1⟩ :=
          syncAllFiles_sim fs srcRoot destRoot cat ow dr hroot
            (sortedModelFiles fs srcRoot cat) (sortedModelFiles_nodup fs srcRoot cat)
            m1 fs1 hrf hsrcAll (fun n _ => hdst cat (List.mem_cons_self _ _) n)
        have hdst1 : ∀ c ∈ rest, ∀ n,
            ((sortedModelFiles fs srcRoot cat).foldl
              (syncAllFile srcRoot destRoot cat ow dr) (m1, fs1)).2.lookup
                (FPath.catFile destRoot c n) =
              fs.lookup (FPath.catFile destRoot c n) := by
          intro c hc n
          rw [hframe1 (FPath.catFile destRoot c n) ?_]
          · exact hdst c (List.mem_cons_of_mem _ hc) n
          · intro n2 _ h
            injection h with _ h2 _
            exact hnd.1 (h2 ▸ hc)
        obtain ⟨ihres, ihframe⟩ := ih hnd.2
          ((sortedModelFiles fs srcRoot cat).foldl
            (fun m3 n => if syncDecision fs srcRoot destRoot cat ow dr n = true
              then aupsert m3 cat n else m3) m1)
          (((sortedModelFiles fs srcRoot cat).foldl
            (syncAllFile srcRoot destRoot cat ow dr) (m1, fs1)).2)
          hrf1 hsrc1 hdst1
        have hsplit : (sortedModelFiles fs srcRoot cat).foldl
              (syncAllFile srcRoot destRoot cat ow dr) (m1, fs1) =
            (((sortedModelFiles fs srcRoot cat).foldl
              (fun m3 n => if syncDecision fs srcRoot destRoot cat ow dr n = true
                then aupsert m3 cat n else m3) m1),
             (((sortedModelFiles fs srcRoot cat).foldl
              (syncAllFile srcRoot destRoot cat ow dr) (m1, fs1)).2)) := by
          rw [← hres1]
        rw [hstep, hsplit]
        refine ⟨?_, ?_⟩
        · rw [ihres]
          unfold syncAllResult
          rw [List.foldl_cons, if_neg hh]
        · intro q hq
          rw [ihframe q (fun c hc n => hq c (List.mem_cons_of_mem _ hc) n)]
          exact hframe1 q (fun n _ => hq cat (List.mem_cons_self _ _) n)

theorem sync_all_models_result (fs : FS) (srcRoot destRoot : RootId)
    (ow dr : Bool) (hroot : srcRoot ≠ destRoot) :
    (sync_all_models fs srcRoot destRoot ow dr).1 =
      syncAllResult fs srcRoot destRoot ow dr [] (categories fs srcRoot) := by
  unfold sync_all_models
  exact (syncAllCats_sim fs srcRoot destRoot ow dr hroot
    (categories fs srcRoot) (List.nodup_dedup _) [] fs rfl
    (fun c n => rfl) (fun c _ n => rfl)).1

end ImportModels

namespace ImportModels

theorem getLast?_cons_or {α : Type} (a : α) (l : List α) :
    (a :: l).getLast? = l.getLast?.or (some a) := by
  cases l with
  | nil => rfl
  | cons b t =>
      rw [List.getLast?_cons_cons]
      cases h : (b :: t).getLast? with
      | none => exact absurd (List.getLast?_eq_none_iff.mp h) (List.cons_ne_nil b t)
      | some x => rfl

theorem alookup_keep_last (dec : String → Bool) (cat : String) :
    ∀ (ns : List String) (m : List (String × String)),
      alookup (ns.foldl (fun m3 n => if dec n = true then aupsert m3 cat n else m3) m)
        cat = ((ns.filter dec).getLast?).or (alookup m cat) := by
  intro ns
  induction ns with
  | nil => intro m; rfl
  | cons n t ih =>
      intro m
      rw [List.foldl_cons]
      by_cases hd : dec n = true
      · rw [if_pos hd, ih (aupsert m cat n), alookup_aupsert, if_pos rfl,
          List.filter_cons_of_pos hd, getLast?_cons_or, Option.or_assoc, Option.or_some]
      · rw [if_neg hd, ih m, List.filter_cons_of_neg hd]

theorem alookup_keep_other (dec : String → Bool) (c cat : String) (hne : cat ≠ c) :
    ∀ (ns : List String) (m : List (String × String)),
      alookup (ns.foldl (fun m3 n => if dec n = true then aupsert m3 c n else m3) m)
        cat = alookup m cat := by
  intro ns
  induction ns with
  | nil => intro m; rfl
  | cons n t ih =>
      intro m
      rw [List.foldl_cons]
      by_cases hd : dec n = true
      · rw [if_pos hd, ih (aupsert m c n), alookup_aupsert, if_neg hne]
      · rw [if_neg hd, ih m]

end ImportModels

namespace ImportModels

theorem alookup_syncAllResult (fs : FS) (srcRoot destRoot : RootId)
    (ow dr : Bool) (cat : String) :
    ∀ (cats : List String) (m : List (String × String)),
      alookup (syncAllResult fs srcRoot destRoot ow dr m cats) cat =
        if cat ∈ cats ∧ hiddenName cat = false
        then (((sortedModelFiles fs srcRoot cat).filter
          (fun n => syncDecision fs srcRoot destRoot cat ow dr n)).getLast?).or
            (alookup m cat)
        else alookup m cat := by
  intro cats
  induction cats with
  | nil =>
      intro m
      rw [if_neg]
      · rfl
      · rintro ⟨h, _⟩
        cases h
  | cons c0 rest ih =>
      intro m
      have hstep : syncAllResult fs srcRoot destRoot ow dr m (c0 :: rest) =
          syncAllResult fs srcRoot destRoot ow dr
            (if hiddenName c0 = true then m
             else (sortedModelFiles fs srcRoot c0).foldl
              (fun m3 n => if syncDecision fs srcRoot destRoot c0 ow dr n = true
                then aupsert m3 c0 n else m3) m) rest := by
        unfold syncAllResult
        rw [List.foldl_cons]
      rw [hstep]
      by_cases hh : hiddenName c0 = true
      · rw [if_pos hh, ih m]
        by_cases hr : cat ∈ rest ∧ hiddenName cat = false
        · rw [if_pos hr, if_pos ⟨List.mem_cons_of_mem _ hr.1, hr.2⟩]
        · rw [if_neg hr, if_neg]
          rintro ⟨hmem, hf⟩
          rcases List.mem_cons.mp hmem with he | hmem2
          · rw [he] at hf
            rw [hh] at hf
            cases hf
          · exact hr ⟨hmem2, hf⟩
      · rw [if_neg hh]
        by_cases hc : c0 = cat
        · subst hc
          have hf : hiddenName c0 = false := Bool.eq_false_iff.mpr hh
          have hkey : alookup ((sortedModelFiles fs srcRoot c0).foldl
              (fun m3 n => if syncDecision fs srcRoot destRoot c0 ow dr n = true
                then aupsert m3 c0 n else m3) m) c0 =
              (((sortedModelFiles fs srcRoot c0).filter
                (fun n => syncDecision fs srcRoot destRoot c0 ow dr n)).getLast?).or
                (alookup m c0) :=
            alookup_keep_last _ c0 _ m
          rw [ih]
          by_cases hr : c0 ∈ rest ∧ hiddenName c0 = false
          · rw [if_pos hr, hkey, if_pos ⟨List.mem_cons_self _ _, hf⟩,
              ← Option.or_assoc, Option.or_self]
          · rw [if_neg hr, hkey, if_pos ⟨List.mem_cons_self _ _, hf⟩]
        · rw [ih]
          have hkey : alookup ((sortedModelFiles fs srcRoot c0).foldl
              (fun m3 n => if syncDecision fs srcRoot destRoot c0 ow dr n = true
                then aupsert m3 c0 n else m3) m) cat = alookup m cat :=
            alookup_keep_other _ c0 cat (fun e => hc e.symm) _ m
          by_cases hr : cat ∈ rest ∧ hiddenName cat = false
          · rw [if_pos hr, hkey, if_pos ⟨List.mem_cons_of_mem _ hr.1, hr.2⟩]
          · rw [if_neg hr, hkey, if_neg]
            rintro ⟨hmem, hf⟩
            rcases List.mem_cons.mp hmem with he | hmem2
            · exact hc he.symm
            · exact hr ⟨hmem2, hf⟩

theorem modelFilesIn_eq_nil (fs : FS) (root : RootId) (cat : String)
    (h : cat ∉ categories fs root) : modelFilesIn fs root cat = [] := by
  cases hm : modelFilesIn fs root cat with
  | nil => rfl
  | cons n t =>
      exfalso
      have hn : n ∈ modelFilesIn fs root cat := by
        rw [hm]
        exact List.mem_cons_self _ _
      obtain ⟨_, c0, hmem⟩ := (mem_modelFilesIn fs root cat n).mp hn
      exact h ((mem_categories fs root cat).mpr ⟨n, c0, hmem⟩)

/-- C4: within each non-hidden source category, sync_all_models processes
the files matching "model_*.json" in ascending name order (code-point
order, as Python's sorted() orders same-directory paths), and its result
maps a category to the last processed file whose copy_model_file decision
was positive - so a category with model_001.json and model_002.json both
copied ends up mapped to model_002.json. -/
theorem sync_all_models_sorted_last_wins (fs : FS) (srcRoot destRoot : RootId)
    (ow dr : Bool) (cat : String) (hroot : srcRoot ≠ destRoot) :
    List.Sorted (fun a b : String => strLe a b = true)
      (sortedModelFiles fs srcRoot cat) ∧
    alookup (sync_all_models fs srcRoot destRoot ow dr).1 cat =
      (if hiddenName cat = true then none
       else ((sortedModelFiles fs srcRoot cat).filter
        (fun n => syncDecision fs srcRoot destRoot cat ow dr n)).getLast?) := by
  constructor
  · exact List.sorted_insertionSort _ _
  · rw [sync_all_models_result fs srcRoot destRoot ow dr hroot,
      alookup_syncAllResult]
    by_cases hh : hiddenName cat = true
    · rw [if_pos hh, if_neg]
      · rfl
      · rintro ⟨_, hf⟩
        rw [hh] at hf
        cases hf
    · have hf : hiddenName cat = false := Bool.eq_false_iff.mpr hh
      rw [if_neg hh]
      by_cases hmem : cat ∈ categories fs srcRoot
      · rw [if_pos ⟨hmem, hf⟩]
        exact Option.or_none
      · rw [if_neg (fun h => hmem h.1)]
        have hnil : sortedModelFiles fs srcRoot cat = [] := by
          unfold sortedModelFiles
          rw [modelFilesIn_eq_nil fs srcRoot cat hmem]
          rfl
        rw [hnil]
        rfl

/-- Source tree for the sync-all witness: category C with two fresh model
files. -/
def fsTwoModels : FS := mkFS
  [(FPath.catFile 0 "C" "model_001.json", Content.blob "a"),
   (FPath.catFile 0 "C" "model_002.json", Content.blob "b")]

theorem sync_all_models_sorted_last_wins_witness :
    List.Sorted (fun a b : String => strLe a b = true)
      (sortedModelFiles fsTwoModels 0 "C") ∧
    alookup (sync_all_models fsTwoModels 0 1 false false).1 "C" =
      some "model_002.json" := by
  have h := sync_all_models_sorted_last_wins fsTwoModels 0 1 false false "C"
    (by decide)
  refine ⟨h.1, ?_⟩
  rw [h.2]
  decide

end ImportModels

namespace ImportModels

theorem dry_run_no_mutation_witness :
    run_import fsOneModel 0 1 true true false true nowW = Except.ok fsOneModel ∧
    (copy_model_file fsOneModel srcFinkel dstFinkel false true).1 =
      (copy_model_file fsOneModel srcFinkel dstFinkel false false).1 := by
  have h := dry_run_no_mutation fsOneModel 0 1 true true false nowW []
    srcFinkel dstFinkel false (by decide)
  exact ⟨h.1, h.2.2.2.2.2⟩

end ImportModels

namespace ImportModels

/-- Invariant established by a live sync-best pass for one manifest entry:
the destination file exists, and under overwrite it holds exactly the
source's content. -/
def destSynced (fs : FS) (s d : RootId) (ow : Bool) (fs2 : FS)
    (r mf : String) : Prop :=
  (fs2.lookup (FPath.catFile d r mf)).isSome = true ∧
  (ow = true → fs2.lookup (FPath.catFile d r mf) = fs.lookup (FPath.catFile s r mf))

theorem syncBestEntry_step (fs : FS) (s d : RootId) (ow : Bool) (hroot : s ≠ d)
    (hrf : ∀ p, fs.readFail p = false)
    (acc : List (String × String) × FS) (it : String × JEntry)
    (H1 : acc.2.readFail = fs.readFail)
    (H2 : ∀ p, (∀ r mf, p ≠ FPath.catFile d r mf) → acc.2.lookup p = fs.lookup p) :
    (syncBestEntry s d ow false acc it).2.readFail = fs.readFail ∧
    (∀ p, (∀ r mf, p ≠ FPath.catFile d r mf) →
      (syncBestEntry s d ow false acc it).2.lookup p = fs.lookup p) ∧
    (∀ r mf, destSynced fs s d ow acc.2 r mf →
      destSynced fs s d ow (syncBestEntry s d ow false acc it).2 r mf) ∧
    (∀ mf dt tm, it.2 = JEntry.wf mf dt tm →
      (fs.lookup (FPath.catFile s it.1 mf)).isSome = true →
      destSynced fs s d ow (syncBestEntry s d ow false acc it).2 it.1 mf) ∧
    (∀ r mf, acc.2.lookup (FPath.catFile d r mf) =
        fs.lookup (FPath.catFile s r mf) →
      (syncBestEntry s d ow false acc it).2.lookup (FPath.catFile d r mf) =
        fs.lookup (FPath.catFile s r mf)) ∧
    (∀ r mf, alookup (syncBestEntry s d ow false acc it).1 r = some mf →
      (alookup acc.1 r = some mf ∧
        (syncBestEntry s d ow false acc it).2.lookup (FPath.catFile d r mf) =
          acc.2.lookup (FPath.catFile d r mf)) ∨
      (syncBestEntry s d ow false acc it).2.lookup (FPath.catFile d r mf) =
        fs.lookup (FPath.catFile s r mf)) := by
  obtain ⟨r0, e0⟩ := it
  cases e0 with
  | bad raw =>
      refine ⟨H1, H2, fun r mf h => h, ?_, fun r mf h => h,
        fun r mf h => Or.inl ⟨h, rfl⟩⟩
      intro mf dt tm he
      cases he
  | wf mf0 dt0 tm0 =>
      have hsne : FPath.catFile s r0 mf0 ≠ FPath.catFile d r0 mf0 := by
        intro h
        injection h with h1 _ _
        exact hroot h1
      have hsrceq : acc.2.lookup (FPath.catFile s r0 mf0) =
          fs.lookup (FPath.catFile s r0 mf0) :=
        H2 _ (fun r mf h => by
          injection h with h1 _ _
          exact hroot h1)
      show _ ∧ _ ∧ _ ∧ _ ∧ _ ∧ _
      by_cases hskip : (acc.2.lookup (FPath.catFile s r0 mf0)).isSome = false
      · have hstep : syncBestEntry s d ow false acc (r0, JEntry.wf mf0 dt0 tm0) = acc := by
          unfold syncBestEntry
          dsimp only
          rw [if_pos hskip]
        rw [hstep]
        refine ⟨H1, H2, fun r mf h => h, ?_, fun r mf h => h,
          fun r mf h => Or.inl ⟨h, rfl⟩⟩
        intro mf dt tm he hex
        injection he with he1 _ _
        subst he1
        rw [← hsrceq] at hex
        rw [hex] at hskip
        cases hskip
      · have hstep : syncBestEntry s d ow false acc (r0, JEntry.wf mf0 dt0 tm0) =
            (if (copy_model_file acc.2 (FPath.catFile s r0 mf0)
                (FPath.catFile d r0 mf0) ow false).1
              then aupsert acc.1 r0 mf0 else acc.1,
             (copy_model_file acc.2 (FPath.catFile s r0 mf0)
                (FPath.catFile d r0 mf0) ow false).2) := by
          unfold syncBestEntry
          dsimp only
          rw [if_neg hskip]
          by_cases hb : (copy_model_file acc.2 (FPath.catFile s r0 mf0)
              (FPath.catFile d r0 mf0) ow false).1 = true
          · rw [if_pos hb, if_pos hb]
          · rw [if_neg hb, if_neg hb]
        obtain ⟨c0, hc0⟩ : ∃ c0, acc.2.lookup (FPath.catFile s r0 mf0) = some c0 := by
          cases h : acc.2.lookup (FPath.catFile s r0 mf0) with
          | none => rw [h] at hskip; exact absurd rfl hskip
          | some c => exact ⟨c, rfl⟩
        have hfs0 : fs.lookup (FPath.catFile s r0 mf0) = some c0 := by
          rw [← hsrceq]; exact hc0
        rw [hstep]
        by_cases hdec : (copy_model_file acc.2 (FPath.catFile s r0 mf0)
            (FPath.catFile d r0 mf0) ow false).1 = true
        · -- the file is copied: the destination now holds the source bytes
          have hcs : (copy_model_file acc.2 (FPath.catFile s r0 mf0)
              (FPath.catFile d r0 mf0) ow false).2 =
              acc.2.copy2 (FPath.catFile s r0 mf0) (FPath.catFile d r0 mf0) := by
            rw [copy_model_file_state, if_pos ⟨hdec, rfl⟩]
          have hlook : ∀ q, (copy_model_file acc.2 (FPath.catFile s r0 mf0)
              (FPath.catFile d r0 mf0) ow false).2.lookup q =
              if q = FPath.catFile d r0 mf0 then some c0 else acc.2.lookup q := by
            intro q
            rw [hcs, FS.lookup_copy2 acc.2 _ _ c0 hc0]
          refine ⟨?_, ?_, ?_, ?_, ?_, ?_⟩
          · rw [copy_model_file_readFail2]
            exact H1
          · intro p hp
            rw [hlook p, if_neg (hp r0 mf0)]
            exact H2 p hp
          · intro r mf hPost
            by_cases hq : FPath.catFile d r mf = FPath.catFile d r0 mf0
            · injection hq with _ h2 h3
              subst h2; subst h3
              refine ⟨?_, fun _ => ?_⟩
              · rw [hlook, if_pos rfl]; rfl
              · rw [hlook, if_pos rfl, hfs0]
            · refine ⟨?_, fun how => ?_⟩
              · rw [hlook, if_neg hq]; exact hPost.1
              · rw [hlook, if_neg hq]; exact hPost.2 how
          · intro mf dt tm he _
            injection he with he1 _ _
            subst he1
            refine ⟨?_, fun _ => ?_⟩
            · rw [hlook, if_pos rfl]; rfl
            · rw [hlook, if_pos rfl, hfs0]
          · intro r mf hid
            by_cases hq : FPath.catFile d r mf = FPath.catFile d r0 mf0
            · injection hq with _ h2 h3
              subst h2; subst h3
              rw [hlook, if_pos rfl, hfs0]
            · rw [hlook, if_neg hq]
              exact hid
          · intro r mf hres
            rw [if_pos hdec] at hres
            rw [alookup_aupsert] at hres
            by_cases hr : r = r0
            · rw [if_pos hr] at hres
              cases hres
              refine Or.inr ?_
              rw [hr, hlook, if_pos rfl, hfs0]
            · rw [if_neg hr] at hres
              refine Or.inl ⟨hres, ?_⟩
              rw [hlook, if_neg]
              intro h
              injection h with _ h2 _
              exact hr h2
        · -- skipped: the state is unchanged and the decision analysis gives
          -- the invariant directly
          have hcs : (copy_model_file acc.2 (FPath.catFile s r0 mf0)
              (FPath.catFile d r0 mf0) ow false).2 = acc.2 := by
            rw [copy_model_file_state, if_neg]
            rintro ⟨h1, _⟩
            exact hdec h1
          rw [if_neg hdec, hcs]
          refine ⟨H1, H2, fun r mf h => h, ?_, fun r mf h => h,
            fun r mf h => Or.inl ⟨h, rfl⟩⟩
          intro mf dt tm he _
          injection he with he1 _ _
          subst he1
          rw [copy_model_file_fst] at hdec
          cases hod : acc.2.lookup (FPath.catFile d r0 mf0) with
          | none =>
              exfalso
              rw [hod] at hdec
              exact hdec rfl
          | some cd =>
              rw [hod, hc0, H1, hrf, hrf] at hdec
              refine ⟨by rw [hod]; rfl, fun how => ?_⟩
              subst how
              by_cases hident : (false : Bool) = false ∧ (false : Bool) = false ∧
                  (some c0 : Option Content) = some cd
              · obtain ⟨_, _, h3⟩ := hident
                injection h3 with h3
                rw [hod, hfs0, h3]
              · refine absurd ?_ hdec
                show (match (some cd : Option Content) with
                  | none => true
                  | some cd => if (false : Bool) = false ∧ (false : Bool) = false ∧
                      (some c0 : Option Content) = some cd then false else true) = true
                dsimp only
                rw [if_neg hident]

end ImportModels

namespace ImportModels

theorem syncBest_fold_sim (fs : FS) (s d : RootId) (ow : Bool) (hroot : s ≠ d)
    (hrf : ∀ p, fs.readFail p = false) :
    ∀ (todo : List (String × JEntry)) (acc : List (String × String) × FS),
      acc.2.readFail = fs.readFail →
      (∀ p, (∀ r mf, p ≠ FPath.catFile d r mf) → acc.2.lookup p = fs.lookup p) →
      (todo.foldl (syncBestEntry s d ow false) acc).2.readFail = fs.readFail ∧
      (∀ p, (∀ r mf, p ≠ FPath.catFile d r mf) →
        (todo.foldl (syncBestEntry s d ow false) acc).2.lookup p = fs.lookup p) ∧
      (∀ r mf, destSynced fs s d ow acc.2 r mf →
        destSynced fs s d ow (todo.foldl (syncBestEntry s d ow false) acc).2 r mf) ∧
      (∀ r e, (r, e) ∈ todo → ∀ mf dt tm, e = JEntry.wf mf dt tm →
        (fs.lookup (FPath.catFile s r mf)).isSome = true →
        destSynced fs s d ow (todo.foldl (syncBestEntry s d ow false) acc).2 r mf) ∧
      (∀ r mf, acc.2.lookup (FPath.catFile d r mf) =
          fs.lookup (FPath.catFile s r mf) →
        (todo.foldl (syncBestEntry s d ow false) acc).2.lookup (FPath.catFile d r mf) =
          fs.lookup (FPath.catFile s r mf)) ∧
      (∀ r mf, alookup (todo.foldl (syncBestEntry s d ow false) acc).1 r = some mf →
        (alookup acc.1 r = some mf ∧
          (todo.foldl (syncBestEntry s d ow false) acc).2.lookup
            (FPath.catFile d r mf) = acc.2.lookup (FPath.catFile d r mf)) ∨
        (todo.foldl (syncBestEntry s d ow false) acc).2.lookup (FPath.catFile d r mf) =
          fs.lookup (FPath.catFile s r mf)) := by
  intro todo
  induction todo with
  | nil =>
      intro acc H1 H2
      exact ⟨H1, H2, fun r mf h => h, fun r e hmem => absurd hmem (List.not_mem_nil _),
        fun r mf h => h, fun r mf h => Or.inl ⟨h, rfl⟩⟩
  | cons hd t ih =>
      intro acc H1 H2
      obtain ⟨S1, S2, S3, S4, S5, S6⟩ :=
        syncBestEntry_step fs s d ow hroot hrf acc hd H1 H2
      obtain ⟨I1, I2, I3, I4, I5, I6⟩ := ih (syncBestEntry s d ow false acc hd) S1 S2
      rw [List.foldl_cons]
      refine ⟨I1, I2, fun r mf h => I3 r mf (S3 r mf h), ?_,
        fun r mf h => I5 r mf (S5 r mf h), ?_⟩
      · intro r e hmem mf dt tm he hex
        rcases List.mem_cons.mp hmem with he1 | hmem2
        · obtain ⟨rh, eh⟩ := hd
          injection he1 with he1a he1b
          subst he1a
          subst he1b
          exact I3 r mf (S4 mf dt tm he hex)
        · exact I4 r e hmem2 mf dt tm he hex
      · intro r mf hres
        rcases I6 r mf hres with ⟨hacc1, heq1⟩ | hfs1
        · rcases S6 r mf hacc1 with ⟨hacc0, heq0⟩ | hfs0
          · exact Or.inl ⟨hacc0, heq1.trans heq0⟩
          · exact Or.inr (heq1.trans hfs0)
        · exact Or.inr hfs1

theorem syncBest_noop (fs1 : FS) (s d : RootId) (ow : Bool)
    (hrf1 : ∀ p, fs1.readFail p = false) :
    ∀ (todo : List (String × JEntry)) (m1 : List (String × String)),
      (∀ r e, (r, e) ∈ todo → ∀ mf dt tm, e = JEntry.wf mf dt tm →
        (fs1.lookup (FPath.catFile s r mf)).isSome = true →
        (fs1.lookup (FPath.catFile d r mf)).isSome = true ∧
        (ow = true → fs1.lookup (FPath.catFile d r mf) =
          fs1.lookup (FPath.catFile s r mf))) →
      todo.foldl (syncBestEntry s d ow false) (m1, fs1) = (m1, fs1) := by
  intro todo
  induction todo with
  | nil => intro m1 _; rfl
  | cons hd t ih =>
      intro m1 hdec
      rw [List.foldl_cons]
      have hstep : syncBestEntry s d ow false (m1, fs1) hd = (m1, fs1) := by
        obtain ⟨r0, e0⟩ := hd
        cases e0 with
        | bad raw => rfl
        | wf mf0 dt0 tm0 =>
            unfold syncBestEntry
            dsimp only
            by_cases hskip : (fs1.lookup (FPath.catFile s r0 mf0)).isSome = false
            · rw [if_pos hskip]
            · rw [if_neg hskip]
              have hex : (fs1.lookup (FPath.catFile s r0 mf0)).isSome = true := by
                cases hb : (fs1.lookup (FPath.catFile s r0 mf0)).isSome with
                | false => exact absurd hb hskip
                | true => rfl
              obtain ⟨h1, h2⟩ := hdec r0 (JEntry.wf mf0 dt0 tm0)
                (List.mem_cons_self _ _) mf0 dt0 tm0 rfl hex
              obtain ⟨c0, hc0⟩ : ∃ c0,
                  fs1.lookup (FPath.catFile s r0 mf0) = some c0 := by
                cases hb : fs1.lookup (FPath.catFile s r0 mf0) with
                | none => rw [hb] at hex; cases hex
                | some c => exact ⟨c, rfl⟩
              obtain ⟨cd, hod⟩ : ∃ cd,
                  fs1.lookup (FPath.catFile d r0 mf0) = some cd := by
                cases hb : fs1.lookup (FPath.catFile d r0 mf0) with
                | none => rw [hb] at h1; cases h1
                | some c => exact ⟨c, rfl⟩
              have hdecv : (copy_model_file fs1 (FPath.catFile s r0 mf0)
                  (FPath.catFile d r0 mf0) ow false).1 = false := by
                rw [copy_model_file_fst, hc0, hod, hrf1, hrf1]
                show (match (some cd : Option Content) with
                  | none => true
                  | some cd => if (false : Bool) = false ∧ (false : Bool) = false ∧
                      (some c0 : Option Content) = some cd then false else ow) = false
                dsimp only
                by_cases hid : (false : Bool) = false ∧ (false : Bool) = false ∧
                    (some c0 : Option Content) = some cd
                · rw [if_pos hid]
                · rw [if_neg hid]
                  cases how : ow with
                  | false => rfl
                  | true =>
                      exfalso
                      apply hid
                      refine ⟨rfl, rfl, ?_⟩
                      rw [← hc0, ← hod]
                      rw [how] at h2
                      exact (h2 rfl).symm
              have hstate : (copy_model_file fs1 (FPath.catFile s r0 mf0)
                  (FPath.catFile d r0 mf0) ow false).2 = fs1 := by
                rw [copy_model_file_state, if_neg]
                rintro ⟨hh, _⟩
                rw [hdecv] at hh
                cases hh
              rw [hdecv, if_neg Bool.false_ne_true, hstate]
      rw [hstep]
      exact ih m1 (fun r e hmem => hdec r e (List.mem_cons_of_mem _ hmem))

end ImportModels

namespace ImportModels

/-- C6: sync_best_models is idempotent in work performed: with readable
files and a readable source manifest, after one successful live run (every
referenced, well-formed, source-existing entry was copied or was already
up to date), every referenced file is identical at the destination, and a
second live run with unchanged source copies nothing - copy_model_file
returns false throughout, the result map is empty and the filesystem is
untouched. -/
theorem sync_best_models_idempotent (fs : FS) (s d : RootId) (ow : Bool)
    (hroot : s ≠ d) (hrf : ∀ p, fs.readFail p = false)
    (es : List (String × JEntry))
    (hm : fs.lookup (FPath.rootFile s bestModelsName) = some (Content.manifest es))
    (hOK : ∀ r mf dt tm, (r, JEntry.wf mf dt tm) ∈ es →
      (fs.lookup (FPath.catFile s r mf)).isSome = true →
      alookup (sync_best_models fs s d ow false).1 r = some mf ∨
        files_identical fs (FPath.catFile s r mf) (FPath.catFile d r mf) = true) :
    (sync_best_models (sync_best_models fs s d ow false).2 s d ow false).1 = [] ∧
    (sync_best_models (sync_best_models fs s d ow false).2 s d ow false).2 =
      (sync_best_models fs s d ow false).2 ∧
    (∀ r mf dt tm, (r, JEntry.wf mf dt tm) ∈ es →
      (fs.lookup (FPath.catFile s r mf)).isSome = true →
      files_identical (sync_best_models fs s d ow false).2
        (FPath.catFile s r mf) (FPath.catFile d r mf) = true) := by
  have hread : readManifest fs (FPath.rootFile s bestModelsName) = Except.ok es := by
    unfold readManifest
    rw [hrf, if_neg Bool.false_ne_true, hm]
  have hrun1 : sync_best_models fs s d ow false =
      es.foldl (syncBestEntry s d ow false) ([], fs) := by
    simp only [sync_best_models]
    rw [hm, if_neg (by simp), hread]
  obtain ⟨I1, I2, I3, I4, I5, I6⟩ :=
    syncBest_fold_sim fs s d ow hroot hrf es ([], fs) rfl (fun p _ => rfl)
  have hs1rf : ∀ p, (sync_best_models fs s d ow false).2.readFail p = false := by
    intro p
    rw [hrun1, I1]
    exact hrf p
  have hs1frame : ∀ p, (∀ r mf, p ≠ FPath.catFile d r mf) →
      (sync_best_models fs s d ow false).2.lookup p = fs.lookup p := by
    intro p hp
    rw [hrun1]
    exact I2 p hp
  have hs1src : ∀ r mf, (sync_best_models fs s d ow false).2.lookup
      (FPath.catFile s r mf) = fs.lookup (FPath.catFile s r mf) := by
    intro r mf
    refine hs1frame _ (fun r2 mf2 h => ?_)
    injection h with h1 _ _
    exact hroot h1
  have hident : ∀ r mf dt tm, (r, JEntry.wf mf dt tm) ∈ es →
      (fs.lookup (FPath.catFile s r mf)).isSome = true →
      (sync_best_models fs s d ow false).2.lookup (FPath.catFile d r mf) =
        fs.lookup (FPath.catFile s r mf) := by
    intro r mf dt tm hmem hex
    rcases hOK r mf dt tm hmem hex with hcopied | hini
    · rw [hrun1] at hcopied
      rcases I6 r mf hcopied with ⟨habs, _⟩ | h
      · cases habs
      · rw [hrun1]
        exact h
    · have hfspd : fs.lookup (FPath.catFile d r mf) =
          fs.lookup (FPath.catFile s r mf) := by
        rw [files_identical_eq] at hini
        cases hpd : fs.lookup (FPath.catFile d r mf) with
        | none => rw [hpd] at hini; cases hini
        | some cdd =>
            rw [hpd] at hini
            obtain ⟨_, _, h3⟩ := of_decide_eq_true hini
            exact h3.symm
      rw [hrun1]
      exact I5 r mf hfspd
  have hidentF : ∀ r mf dt tm, (r, JEntry.wf mf dt tm) ∈ es →
      (fs.lookup (FPath.catFile s r mf)).isSome = true →
      files_identical (sync_best_models fs s d ow false).2
        (FPath.catFile s r mf) (FPath.catFile d r mf) = true := by
    intro r mf dt tm hmem hex
    obtain ⟨c0, hc0⟩ : ∃ c0, fs.lookup (FPath.catFile s r mf) = some c0 := by
      cases hb : fs.lookup (FPath.catFile s r mf) with
      | none => rw [hb] at hex; cases hex
      | some c => exact ⟨c, rfl⟩
    have heq := files_identical_eq (sync_best_models fs s d ow false).2
      (FPath.catFile s r mf) (FPath.catFile d r mf)
    rw [hident r mf dt tm hmem hex, hc0] at heq
    rw [heq]
    exact decide_eq_true ⟨hs1rf _, hs1rf _, (hs1src r mf).trans hc0⟩
  have hs1bm : (sync_best_models fs s d ow false).2.lookup
      (FPath.rootFile s bestModelsName) = some (Content.manifest es) := by
    rw [hs1frame (FPath.rootFile s bestModelsName)
      (fun r mf h => FPath.noConfusion h)]
    exact hm
  have hread2 : readManifest (sync_best_models fs s d ow false).2
      (FPath.rootFile s bestModelsName) = Except.ok es := by
    unfold readManifest
    rw [hs1rf, if_neg Bool.false_ne_true, hs1bm]
  have hrun2 : sync_best_models (sync_best_models fs s d ow false).2 s d ow false =
      es.foldl (syncBestEntry s d ow false) ([], (sync_best_models fs s d ow false).2) := by
    generalize hgen : (sync_best_models fs s d ow false).2 = s1 at hs1bm hread2 ⊢
    simp only [sync_best_models]
    rw [hs1bm, if_neg (by simp), hread2]
  have hnoop : es.foldl (syncBestEntry s d ow false)
      ([], (sync_best_models fs s d ow false).2) =
      ([], (sync_best_models fs s d ow false).2) := by
    refine syncBest_noop (sync_best_models fs s d ow false).2 s d ow hs1rf es [] ?_
    intro r e hmem mf dt tm he hex1
    subst he
    have hex : (fs.lookup (FPath.catFile s r mf)).isSome = true := by
      rw [← hs1src r mf]
      exact hex1
    have hpost := I4 r _ hmem mf dt tm rfl hex
    rw [← hrun1] at hpost
    refine ⟨hpost.1, fun how => ?_⟩
    rw [hpost.2 how, hs1src r mf]
  refine ⟨?_, ?_, hidentF⟩
  · rw [hrun2, hnoop]
  · rw [hrun2, hnoop]

end ImportModels

namespace ImportModels

/-- Manifest for the idempotence witness. -/
def es6 : List (String × JEntry) :=
  [("Finkel", JEntry.wf "model_002.json" "2025-01-01" "01:02:03")]

/-- Source tree for the idempotence witness: the manifest and the model it
references; the destination root 1 is empty. -/
def fs6 : FS := mkFS
  [(FPath.rootFile 0 bestModelsName, Content.manifest es6),
   (FPath.catFile 0 "Finkel" "model_002.json", Content.blob "x")]

theorem sync_best_models_idempotent_witness :
    (sync_best_models (sync_best_models fs6 0 1 false false).2 0 1 false false).1 =
      [] ∧
    (sync_best_models (sync_best_models fs6 0 1 false false).2 0 1 false false).2 =
      (sync_best_models fs6 0 1 false false).2 ∧
    files_identical (sync_best_models fs6 0 1 false false).2
      (FPath.catFile 0 "Finkel" "model_002.json")
      (FPath.catFile 1 "Finkel" "model_002.json") = true := by
  have h := sync_best_models_idempotent fs6 0 1 false (by decide) (fun p => rfl)
    es6 (by decide) ?_
  · exact ⟨h.1, h.2.1, h.2.2 "Finkel" "model_002.json" "2025-01-01" "01:02:03"
      (by decide) (by decide)⟩
  · intro r mf dt tm hmem hex
    rcases List.mem_cons.mp hmem with he | he
    · injection he with h1 h2
      injection h2 with h2a h2b h2c
      subst h1; subst h2a
      refine Or.inl ?_
      decide
    · cases he

end ImportModels
